import Mathlib

/-!
# Machine-config server: appender pipeline and content codec

A shallow embedding of `pkg/server/server.go` and
`pkg/controller/common/helpers.go`.

* Go `string` and `[]byte` are byte sequences: `List Byte` with `Byte = Fin 256`.
  A nil slice and an empty slice are both the empty list; every function below
  that tests `len(..) == 0` appends right after, so the two are never told apart.
* Go `error` is `Option GoError`, `none` being `nil`.
* A function that mutates `*igntypes.Config` takes the document and returns the
  new document next to its error.
-/

namespace MCS

/-! ## Bytes and strings -/

/-- Go `byte`. -/
abbrev Byte := Fin 256

/-- Go `string` / `[]byte`: a sequence of bytes, not necessarily text. -/
abbrev GoString := List Byte

/-- Go `error` values are identified with their message. -/
abbrev GoError := String

/-- Byte string of an ASCII literal (every character of the literals used in
this development is below 128, so one character is one byte). -/
def ascii (s : String) : GoString := s.data.map (fun c => Fin.ofNat c.toNat)

/-! ## `unicode/utf8` (Go standard library) -/

/-- Go `utf8.RuneError`, U+FFFD. -/
def RuneError : Nat := 0xFFFD

/-- Entry of Go `utf8.first` joined with its `utf8.acceptRanges` row. -/
inductive FirstInfo where
  /-- ASCII byte, `as`. -/
  | as
  /-- Invalid leading byte, `xx`. -/
  | xx
  /-- Leading byte of a sequence of `sz` bytes whose second byte lies in `lo..hi`. -/
  | seq (sz lo hi : Nat)
deriving DecidableEq, Repr

/-- Modelled from the spec: Go `utf8.first` and `utf8.acceptRanges` (standard
library, outside the sources verified here); the table a leading byte is looked up in. -/
def first (s0 : Byte) : FirstInfo :=
  if s0.val < 0x80 then .as
  else if s0.val < 0xC2 then .xx
  else if s0.val < 0xE0 then .seq 2 0x80 0xBF
  else if s0.val = 0xE0 then .seq 3 0xA0 0xBF
  else if s0.val < 0xED then .seq 3 0x80 0xBF
  else if s0.val = 0xED then .seq 3 0x80 0x9F
  else if s0.val < 0xF0 then .seq 3 0x80 0xBF
  else if s0.val = 0xF0 then .seq 4 0x90 0xBF
  else if s0.val < 0xF4 then .seq 4 0x80 0xBF
  else if s0.val = 0xF4 then .seq 4 0x80 0x8F
  else .xx

/-- Modelled from the spec: Go `utf8.DecodeRuneInString` (standard library, outside
the sources verified here): the first rune of `s` and its width in bytes; `(RuneError, 1)` for
an invalid encoding, `(RuneError, 0)` for the empty string. Masks and shifts are
written arithmetically: `b & 0x3F` is `b % 64`, `x << 6` is `x * 64`, and the
`|` of disjoint bit fields is their sum. -/
def DecodeRuneInString (s : GoString) : Nat × Nat :=
  match s with
  | [] => (RuneError, 0)
  | s0 :: _ =>
    match first s0 with
    | .as => (s0.val, 1)
    | .xx => (RuneError, 1)
    | .seq sz lo hi =>
      if s.length < sz then (RuneError, 1)
      else
        let s1 := (s.getD 1 0).val
        if s1 < lo ∨ hi < s1 then (RuneError, 1)
        else if sz ≤ 2 then ((s0.val % 32) * 64 + s1 % 64, 2)
        else
          let s2 := (s.getD 2 0).val
          if s2 < 0x80 ∨ 0xBF < s2 then (RuneError, 1)
          else if sz ≤ 3 then ((s0.val % 16) * 4096 + (s1 % 64) * 64 + s2 % 64, 3)
          else
            let s3 := (s.getD 3 0).val
            if s3 < 0x80 ∨ 0xBF < s3 then (RuneError, 1)
            else ((s0.val % 8) * 262144 + (s1 % 64) * 4096 + (s2 % 64) * 64 + s3 % 64, 4)

/-! ## `github.com/vincent-petithory/dataurl` (vendored package) -/

/-- Modelled from the spec: `dataurl.isUnreserved` (vendored package, outside the
sources verified here): letters, digits and the marks `-_.!~*'()` are kept as they are. -/
def isUnreserved (c : Byte) : Bool :=
  (97 ≤ c.val && c.val ≤ 122) ||
  (65 ≤ c.val && c.val ≤ 90) ||
  (48 ≤ c.val && c.val ≤ 57) ||
  c.val == 45 || c.val == 95 || c.val == 46 || c.val == 33 || c.val == 126 ||
  c.val == 42 || c.val == 39 || c.val == 40 || c.val == 41

/-- Digit `n` (below 16) of Go `%X`: `0123456789ABCDEF`. -/
def upperHexDigit (n : Nat) : Byte :=
  if n < 10 then Fin.ofNat (48 + n) else Fin.ofNat (55 + n)

/-- One byte as `dataurl.Escape` writes it: itself when unreserved, otherwise
`fmt.Fprintf(buf, "%%%02X", b)`. -/
def escapeByte (b : Byte) : GoString :=
  if isUnreserved b then [b]
  else [37, upperHexDigit (b.val / 16), upperHexDigit (b.val % 16)]

/-- Modelled from the spec: `dataurl.Escape` (vendored package, outside the
sources verified here), the "escaped body" of the codec: each byte in turn, unreserved bytes
kept, every other byte written as `%` and two hexadecimal digits. -/
def Escape : List Byte → GoString
  | [] => []
  | b :: data => escapeByte b ++ Escape data

/-- Modelled from the spec: `dataurl.isHex` (vendored package). -/
def isHex (c : Byte) : Bool :=
  (97 ≤ c.val && c.val ≤ 102) || (65 ≤ c.val && c.val ≤ 70) || (48 ≤ c.val && c.val ≤ 57)

/-- Modelled from the spec: `dataurl.unhex` (vendored package): value of a
hexadecimal digit, 0 for any other byte. -/
def unhex (c : Byte) : Byte :=
  if 48 ≤ c.val ∧ c.val ≤ 57 then c - 48
  else if 97 ≤ c.val ∧ c.val ≤ 102 then c - 97 + 10
  else if 65 ≤ c.val ∧ c.val ≤ 70 then c - 65 + 10
  else 0

/-- Go `strings.Reader.ReadRune` at the front of a non-empty string: an ASCII
byte is its own rune of width 1, anything else goes through
`utf8.DecodeRuneInString`. -/
def ReadRune (c : Byte) (rest : GoString) : Nat × Nat :=
  if c.val < 0x80 then (c.val, 1) else DecodeRuneInString (c :: rest)

/-- Modelled from the spec: `dataurl.Unescape` (vendored package, outside the
sources verified here), the inverse of `Escape`: `%` must be followed by two hexadecimal digits,
which give one byte; a rune wider than one byte is refused; any other rune is
written as `byte(r)`. The first failure met from the left is the one returned. -/
def Unescape : GoString → Except GoError GoString
  | [] => .ok []
  | c :: rest =>
    let rs := ReadRune c rest
    if 1 < rs.2 then .error "rfc2396: non-ASCII char detected"
    else if rs.1 = 37 then
      match rest with
      | [] => .error "rfc2396: unexpected end of unescape sequence"
      | eb1 :: rest1 =>
        if !isHex eb1 then .error "rfc2396: invalid char 0x25 in unescape sequence"
        else
          match rest1 with
          | [] => .error "rfc2396: unexpected end of unescape sequence"
          | eb0 :: rest2 =>
            if !isHex eb0 then .error "rfc2396: invalid char 0x25 in unescape sequence"
            else (Unescape rest2).map (fun buf => (unhex eb0 + unhex eb1 * 16) :: buf)
    else (Unescape rest).map (fun buf => Fin.ofNat rs.1 :: buf)

/-- Modelled from the spec: `dataurl.isURLCharRune` (vendored package): an ASCII
rune that is no control character, no delimiter and no "unwise" character; `%`
passes here and is validated by `Unescape`. -/
def isURLCharRune (r : Nat) : Bool :=
  r ≤ 0x7F && !(r ≤ 0x1F) && r != 0x7F &&
  r != 32 && r != 60 && r != 62 && r != 35 && r != 34 &&
  r != 123 && r != 125 && r != 124 && r != 92 && r != 94 && r != 91 && r != 93 && r != 96

/-- Modelled from the spec: the lexer state `lexData` of the vendored dataurl
package: every rune up to the end of input must be a URL character. A rune that
passes is ASCII, hence one byte wide, so the scan moves on by one byte. -/
def lexData : GoString → Bool
  | [] => true
  | b :: rest => isURLCharRune (DecodeRuneInString (b :: rest)).1 && lexData rest

/-- The data section of a data URL without the base64 marker: lexed by
`lexData`, then read through `asciiDataReader`, that is `Unescape`. -/
def asciiData (body : GoString) : Except GoError GoString :=
  if lexData body then Unescape body else .error "invalid data character"

/-- Modelled from the spec: the part of the vendored dataurl lexer and parser
that reads an explicit media type, its parameters and the `;base64` marker, and
the decoding of base64 text. The spec ("a MIME-style marker and a
percent/base64-style escaped body") does not fix them and `getEncodedContent`
never writes either, so they are parameters: `lexHeader` is given the input
after `data:` when it does not start with the data comma and answers with an
error or with the base64 flag and the body after the data comma; `base64Data`
is given a body made of base64 text only. -/
structure MediaTypeSyntax where
  lexHeader : GoString → Except GoError (Bool × GoString)
  base64Data : GoString → Except GoError GoString

/-- A byte of base64 text: a letter, a digit, `+`, `/`, the padding `=` or a
line break. -/
def isBase64Char (c : Byte) : Bool :=
  (97 ≤ c.val && c.val ≤ 122) || (65 ≤ c.val && c.val ≤ 90) || (48 ≤ c.val && c.val ≤ 57) ||
  c.val == 43 || c.val == 47 || c.val == 61 || c.val == 10 || c.val == 13

/-- Modelled from the spec: the data section of a data URL with the base64
marker: lexed by `lexData` like any data section, then read through Go's base64
decoder, which fails on a byte that is neither of its alphabet nor a line break.
What base64 text decodes to, and whether all of it is accepted, is left to
`base64Data`; of the errors only the occurrence is modelled, not the byte offset
in the text. -/
def base64Section (M : MediaTypeSyntax) (body : GoString) : Except GoError GoString :=
  if lexData body then
    if body.all isBase64Char then M.base64Data body else .error "illegal base64 data"
  else .error "invalid data character"

/-- The scheme marker `dataurl.dataPrefix`. -/
def dataPrefix : GoString := ascii "data:"

/-- Modelled from the spec: `dataurl.DecodeString` (vendored package, outside the
sources verified here), returning the `Data` field of the decoded URL. `lexBeforeDataPrefix`
demands the scheme marker; `lexAfterDataPrefix` fails at end of input, goes
straight to the data at a comma, and otherwise reads a media-type section. -/
def DecodeString (M : MediaTypeSyntax) (s : GoString) : Except GoError GoString :=
  if dataPrefix.isPrefixOf s then
    match s.drop dataPrefix.length with
    | [] => .error "missing comma before data"
    | r :: after =>
      if r.val = 44 then asciiData after
      else
        match M.lexHeader (r :: after) with
        | .error e => .error e
        | .ok (false, body) => asciiData body
        | .ok (true, body) => base64Section M body
  else .error "missing data prefix"

/-! ## `net/url` (Go standard library) -/

/-- The fields of Go `url.URL` that `getEncodedContent` sets; all others are
left at their zero value. -/
structure URL where
  Scheme : GoString
  Opaque : GoString

/-- Modelled from the spec: Go `(*url.URL).String` (standard library, outside the
sources verified here) on a URL with only `Scheme` and `Opaque` set: the scheme and a colon when
there is a scheme, then the opaque part. -/
def URL.String (u : URL) : GoString :=
  (if u.Scheme ≠ [] then u.Scheme ++ [58] else []) ++ u.Opaque

/-! ## The content codec of `server.go` -/

/-- Function `getEncodedContent` of server.go. -/
def getEncodedContent (inp : GoString) : GoString :=
  URL.String { Scheme := ascii "data", Opaque := [44] ++ Escape inp }

/-- Function `getDecodedContent` of server.go: the payload and the error; the payload is
`""` whenever the error is not nil. -/
def getDecodedContent (M : MediaTypeSyntax) (inp : GoString) : GoString × Option GoError :=
  match DecodeString M inp with
  | .error err => ([], some err)
  | .ok d => (d, none)

/-! ## `encoding/json` (Go standard library): marshalling a `map[string]string` -/

/-- Go `map[string]string`, kept as the list of its entries in increasing key
order (the order in which `json.Marshal` walks a map). -/
abbrev StringMap := List (GoString × GoString)

/-- Go `<` on strings: lexicographic on bytes. -/
def strLess : GoString → GoString → Bool
  | [], [] => false
  | [], _ :: _ => true
  | _ :: _, [] => false
  | a :: s, b :: t => decide (a.val < b.val) || (a == b && strLess s t)

/-- Go `m[k] = v`: the entry for `k` is replaced when there is one and put at
its place in key order otherwise. -/
def mapAssign : StringMap → GoString → GoString → StringMap
  | [], k, v => [(k, v)]
  | (k1, v1) :: m, k, v =>
    if k = k1 then (k, v) :: m
    else if strLess k k1 then (k, v) :: (k1, v1) :: m
    else (k1, v1) :: mapAssign m k v

/-- Go `json.htmlSafeSet`: the ASCII bytes written as they are when HTML
escaping is on: everything from space to DEL except the double quote, `&`, `<`,
`>` and the backslash. -/
def htmlSafeSet (b : Byte) : Bool :=
  0x20 ≤ b.val && b.val < 0x80 &&
  b.val != 34 && b.val != 38 && b.val != 60 && b.val != 62 && b.val != 92

/-- Digit `n` (below 16) of Go `json.hex`: `0123456789abcdef`. -/
def lowerHexDigit (n : Nat) : Byte :=
  if n < 10 then Fin.ofNat (48 + n) else Fin.ofNat (87 + n)

/-- An ASCII byte that is not in `htmlSafeSet`, as `encodeState.string` writes
it: a backslash before `\` and `"`, the short forms of newline, carriage return
and tab, and `\u00XX` for the rest. -/
def jsonEscapeASCII (b : Byte) : GoString :=
  if b.val = 92 ∨ b.val = 34 then [92, b]
  else if b.val = 10 then [92, 110]
  else if b.val = 13 then [92, 114]
  else if b.val = 9 then [92, 116]
  else [92, 117, 48, 48, lowerHexDigit (b.val / 16), lowerHexDigit (b.val % 16)]

/-- The loop of Go `encodeState.string` with `escapeHTML` set, without the
surrounding quotes. `fuel` bounds the iterations; each one consumes at least one
byte, so `s.length` iterations always reach the end of `s`. An invalid byte is
written as the six characters backslash `ufffd`, the runes U+2028 and U+2029 as
backslash `u2028` and backslash `u2029`, every other non-ASCII rune as its own
bytes. -/
def encodeStringLoop : Nat → GoString → GoString
  | 0, _ => []
  | _ + 1, [] => []
  | fuel + 1, b :: rest =>
    if b.val < 0x80 then
      (if htmlSafeSet b then [b] else jsonEscapeASCII b) ++ encodeStringLoop fuel rest
    else
      let cs := DecodeRuneInString (b :: rest)
      if cs.1 = RuneError ∧ cs.2 = 1 then
        [92, 117, 102, 102, 102, 100] ++ encodeStringLoop fuel rest
      else if cs.1 = 0x2028 ∨ cs.1 = 0x2029 then
        [92, 117, 50, 48, 50, lowerHexDigit (cs.1 % 16)] ++
          encodeStringLoop fuel ((b :: rest).drop cs.2)
      else
        (b :: rest).take cs.2 ++ encodeStringLoop fuel ((b :: rest).drop cs.2)

/-- Modelled from the spec: Go `encodeState.string` (standard library, outside the
sources verified here): a string as a JSON string literal, "coerced to valid UTF-8". -/
def encodeString (s : GoString) : GoString :=
  [34] ++ encodeStringLoop s.length s ++ [34]

/-- The members of a JSON object as Go `mapEncoder.encode` writes them: in key
order, `key:value`, a comma between two members. -/
def encodeMembers : StringMap → GoString
  | [] => []
  | [(k, v)] => encodeString k ++ [58] ++ encodeString v
  | (k, v) :: m => encodeString k ++ [58] ++ encodeString v ++ [44] ++ encodeMembers m

/-- The element type of a Go map with string keys, as far as `json.Marshal`
tells element types apart: `string`, which has an encoder, or a type without one
(a channel, a function, a complex number), given by its name. -/
inductive ElemType where
  /-- Element type `string`, encoded by `stringEncoder`. -/
  | string
  /-- An element type `json.Marshal` has no encoder for. -/
  | unsupported (name : String)

/-- The encoder `newTypeEncoder` picks for the element type, run on one element:
a string is written as a JSON string literal; `unsupportedTypeEncoder` fails with
`UnsupportedTypeError`, whatever the element. -/
def encodeElem : ElemType → GoString → Except GoError GoString
  | .string, v => .ok (encodeString v)
  | .unsupported name, _ => .error ("json: unsupported type: " ++ name)

/-- The loop of Go `mapEncoder.encode` over the entries in key order: a comma
before every member but the first, then the key, a colon and the element as its
encoder writes it. The first element whose encoder fails ends the loop with that
error. -/
def encodeMapLoop (t : ElemType) : Bool → StringMap → Except GoError GoString
  | _, [] => .ok []
  | isFirst, (k, v) :: m =>
    match encodeElem t v with
    | .error err => .error err
    | .ok element =>
      match encodeMapLoop t false m with
      | .error err => .error err
      | .ok rest =>
        .ok ((if isFirst then [] else [44]) ++ encodeString k ++ [58] ++ element ++ rest)

/-- Modelled from the spec: Go `json.Marshal` on a non-nil map with string keys
(standard library, outside the sources verified here): one JSON object, keys
sorted, no white space, or the error of the first element that cannot be
encoded. -/
def marshalMap (t : ElemType) (m : StringMap) : Except GoError GoString :=
  match encodeMapLoop t true m with
  | .error err => .error err
  | .ok members => .ok ([123] ++ members ++ [125])

/-- Modelled from the spec: Go `json.Marshal` on a `map[string]string` (standard
library, outside the sources verified here), the "canonical byte encoding" of an
annotation payload. -/
def jsonMarshal (m : StringMap) : Except GoError GoString :=
  marshalMap .string m

/-! ## The document (`igntypes`, Ignition config v3.0) -/

namespace igntypes

/-- Type `igntypes.Node`: the path of a file entry. -/
structure Node where
  Path : GoString
deriving DecidableEq, Repr

/-- Type `igntypes.FileContents`: `Source` is a `*string`. -/
structure FileContents where
  Source : Option GoString
deriving DecidableEq, Repr

/-- Type `igntypes.FileEmbedded1`: `Mode` is a `*int`. -/
structure FileEmbedded1 where
  Contents : FileContents
  Mode : Option Int
deriving DecidableEq, Repr

/-- Type `igntypes.File`, a file entry of the document. -/
structure File where
  Node : Node
  FileEmbedded1 : FileEmbedded1
deriving DecidableEq, Repr

/-- Type `igntypes.Unit`, a unit entry: `Contents` is a `*string`, `Enabled` a `*bool`. -/
structure Unit where
  Name : GoString
  Enabled : Option Bool
  Contents : Option GoString
deriving DecidableEq, Repr

/-- Type `igntypes.Ignition`: the version tag. -/
structure Ignition where
  Version : GoString
deriving DecidableEq, Repr

/-- Type `igntypes.Storage`: the file list. -/
structure Storage where
  Files : List File
deriving DecidableEq, Repr

/-- Type `igntypes.Systemd`: the unit list. -/
structure Systemd where
  Units : List igntypes.Unit
deriving DecidableEq, Repr

/-- Type `igntypes.Config`, the document, with the fields this code reads or writes. -/
structure Config where
  Ignition : Ignition
  Storage : Storage
  Systemd : Systemd
deriving DecidableEq, Repr

end igntypes

open igntypes (Node FileContents FileEmbedded1 File Ignition Storage Systemd Config)

/-- Function `NewIgnConfig` of helpers.go: an empty document with version 3.0.0. -/
def NewIgnConfig : Config :=
  { Ignition := { Version := ascii "3.0.0" }, Storage := { Files := [] }, Systemd := { Units := [] } }

/-! ## Constants and function types of `server.go` -/

/-- The constants of `pkg/daemon/constants` that server.go refers to. The
package is outside the sources verified here, so their values are parameters. -/
structure DaemonConsts where
  EtcPivotFile : GoString
  InitialNodeAnnotationsFilePath : GoString
  CurrentMachineConfigAnnotationKey : GoString
  DesiredMachineConfigAnnotationKey : GoString
  MachineConfigDaemonStateAnnotationKey : GoString
  MachineConfigDaemonStateDone : GoString

/-- Constant `defaultMachineKubeConfPath` of server.go. -/
def defaultMachineKubeConfPath : GoString := ascii "/etc/kubernetes/kubeconfig"

/-- Constant `pivotRebootNeeded` of server.go. -/
def pivotRebootNeeded : GoString := ascii "/run/pivot/reboot-needed"

/-- Type `kubeconfigFunc` of server.go: a call returns the kubeconfig data, the root
CA data and an error. -/
abbrev kubeconfigFunc := Unit → GoString × GoString × Option GoError

/-- Type `appenderFunc` of server.go: the document after the call, and the error. -/
abbrev appenderFunc := Config → Config × Option GoError

/-- Function `boolToPtr` of server.go. -/
def boolToPtr (b : Bool) : Option Bool := some b

/-! ## The appenders of `server.go` -/

/-- Function `appendFileToIgnition` of server.go. -/
def appendFileToIgnition (conf : Config) (outPath contents : GoString) : Config :=
  let fileMode : Int := 420
  let encodedContents := getEncodedContent contents
  let file : File :=
    { Node := { Path := outPath },
      FileEmbedded1 := { Contents := { Source := some encodedContents }, Mode := some fileMode } }
  let files := if conf.Storage.Files.length = 0 then [] else conf.Storage.Files
  { conf with Storage := { Files := files ++ [file] } }

/-- The raw string literal `unitContents` of `appendInitialPivot`; every line
after the first starts with the tab the source is indented by. -/
def unitContents : GoString :=
  ascii ("[Unit]\n" ++
    "\tBefore=pivot.service\n" ++
    "\tConditionFirstBoot=true\n" ++
    "\t[Service]\n" ++
    "\tExecStart=/bin/sh -c \x27mkdir /run/pivot && touch /run/pivot/reboot-needed\x27\n" ++
    "\t[Install]\n" ++
    "\tWantedBy=multi-user.target\n" ++
    "\t")

/-- Function `appendInitialPivot` of server.go. -/
def appendInitialPivot (k : DaemonConsts) (conf : Config) (osimageurl : GoString) :
    Config × Option GoError :=
  if osimageurl = [] then (conf, none)
  else
    let conf := appendFileToIgnition conf k.EtcPivotFile (osimageurl ++ ascii "\n")
    let units := if conf.Systemd.Units.length = 0 then [] else conf.Systemd.Units
    let unit : igntypes.Unit :=
      { Name := ascii "mcd-write-pivot-reboot.service",
        Enabled := boolToPtr true,
        Contents := some unitContents }
    ({ conf with Systemd := { Units := units ++ [unit] } }, none)

/-- Function `appendKubeConfig` of server.go. -/
def appendKubeConfig (conf : Config) (f : kubeconfigFunc) : Config × Option GoError :=
  match f () with
  | (_, _, some err) => (conf, some err)
  | (kcData, _, none) => (appendFileToIgnition conf defaultMachineKubeConfPath kcData, none)

/-- Function `getNodeAnnotation` of server.go: the marshalled annotations and the error. -/
def getNodeAnnotation (k : DaemonConsts) (conf : GoString) : GoString × Option GoError :=
  let nodeAnnotations : StringMap :=
    mapAssign
      (mapAssign
        (mapAssign [] k.CurrentMachineConfigAnnotationKey conf)
        k.DesiredMachineConfigAnnotationKey conf)
      k.MachineConfigDaemonStateAnnotationKey k.MachineConfigDaemonStateDone
  match jsonMarshal nodeAnnotations with
  | .error err => ([], some ("could not marshal node annotations, err: " ++ err))
  | .ok contents => (contents, none)

/-- Function `appendNodeAnnotations` of server.go. -/
def appendNodeAnnotations (k : DaemonConsts) (conf : Config) (currConf : GoString) :
    Config × Option GoError :=
  match getNodeAnnotation k currConf with
  | (_, some err) => (conf, some err)
  | (anno, none) => (appendFileToIgnition conf k.InitialNodeAnnotationsFilePath anno, none)

/-- Function `getAppenders` of server.go. The pool request `cr` is not used; its type is
declared outside the sources verified here and is left open. -/
def getAppenders {PoolRequest : Type} (k : DaemonConsts) (_cr : PoolRequest)
    (currMachineConfig : GoString) (f : kubeconfigFunc) (osimageurl : GoString) :
    List appenderFunc :=
  [ fun config => appendNodeAnnotations k config currMachineConfig,
    fun config => appendInitialPivot k config osimageurl,
    fun config => appendKubeConfig config f ]

/-- Modelled from the spec: the pipeline `Run(document, appenders)` of spec
section 4.2; the loop itself is in the callers of `getAppenders`, which are outside
the sources verified here. "Iterate the sequence in the given order; invoke each with the
document; if any returns a non-nil error, abort immediately and propagate that
error unchanged"; on full success return nil. -/
def Run (document : Config) : List appenderFunc → Config × Option GoError
  | [] => (document, none)
  | a :: appenders =>
    match a document with
    | (document1, some err) => (document1, some err)
    | (document1, none) => Run document1 appenders

/-- The document after applying each appender of the list in order, whatever
the errors: the contributions of the list. -/
def contributions (document : Config) (appenders : List appenderFunc) : Config :=
  appenders.foldl (fun d a => (a d).1) document

/-- Sample values for the constants of `pkg/daemon/constants`, for statements
that need a concrete instance. -/
def sampleConsts : DaemonConsts :=
  { EtcPivotFile := ascii "/etc/pivot/image-pullspec",
    InitialNodeAnnotationsFilePath := ascii "/etc/machine-config-daemon/node-annotations.json",
    CurrentMachineConfigAnnotationKey := ascii "machineconfiguration.openshift.io/currentConfig",
    DesiredMachineConfigAnnotationKey := ascii "machineconfiguration.openshift.io/desiredConfig",
    MachineConfigDaemonStateAnnotationKey := ascii "machineconfiguration.openshift.io/state",
    MachineConfigDaemonStateDone := ascii "Done" }

/-! ## Decoding side: malformed escapes, UTF-8 validity, JSON objects -/

/-- Some `%` of the body is not followed by two hexadecimal digits. -/
def hasInvalidEscape : GoString → Bool
  | [] => false
  | c :: rest =>
    (c.val == 37 &&
      !(match rest with
        | h1 :: h0 :: _ => isHex h1 && isHex h0
        | _ => false)) || hasInvalidEscape rest

/-- A media-type syntax that accepts nothing: every data URL with a media type or
a base64 marker is refused. For statements that need a concrete instance. -/
def noMediaType : MediaTypeSyntax :=
  { lexHeader := fun _ => .error "media types are not read",
    base64Data := fun _ => .error "base64 is not read" }

/-- The input up to the first comma and the input after it; `none` when there
is no comma. -/
def splitAtComma : GoString → Option (GoString × GoString)
  | [] => none
  | c :: rest =>
    if c.val = 44 then some ([], rest)
    else (splitAtComma rest).map (fun p => (c :: p.1, p.2))

/-- A media-type syntax that takes any header: the header runs to the first
comma, is not checked, and marks base64 when it ends in `;base64`; base64 text is
handed back as it is. For statements that need a concrete instance that reads
media types. -/
def anyMediaType : MediaTypeSyntax :=
  { lexHeader := fun s =>
      match splitAtComma s with
      | none => .error "missing comma before data"
      | some (header, body) => .ok ((ascii ";base64").isSuffixOf header, body),
    base64Data := fun body => .ok body }

/-- The loop of Go `utf8.ValidString`, rune by rune: no rune of the string
decodes to `RuneError` with width 1. `fuel` bounds the iterations, `s.length` is
always enough. -/
def validLoop : Nat → GoString → Bool
  | 0, s => s.isEmpty
  | _ + 1, [] => true
  | fuel + 1, b :: rest =>
    let cs := DecodeRuneInString (b :: rest)
    if cs.1 = RuneError ∧ cs.2 = 1 then false
    else validLoop fuel ((b :: rest).drop cs.2)

/-- Modelled from the spec: Go `utf8.ValidString` (standard library): the string
is well-formed UTF-8 text. -/
def ValidString (s : GoString) : Bool := validLoop s.length s

/-- Modelled from the spec: Go `utf8.EncodeRune` (standard library, outside the
sources verified here): the UTF-8 bytes of a rune; a surrogate or a rune above U+10FFFF is
written as U+FFFD. Shifts and masks are written arithmetically. -/
def EncodeRune (r : Nat) : GoString :=
  if r ≤ 0x7F then [Fin.ofNat r]
  else if r ≤ 0x7FF then [Fin.ofNat (0xC0 + r / 64), Fin.ofNat (0x80 + r % 64)]
  else if 0x10FFFF < r ∨ (0xD800 ≤ r ∧ r ≤ 0xDFFF) then [0xEF, 0xBF, 0xBD]
  else if r ≤ 0xFFFF then
    [Fin.ofNat (0xE0 + r / 4096), Fin.ofNat (0x80 + r / 64 % 64), Fin.ofNat (0x80 + r % 64)]
  else
    [Fin.ofNat (0xF0 + r / 262144), Fin.ofNat (0x80 + r / 4096 % 64),
     Fin.ofNat (0x80 + r / 64 % 64), Fin.ofNat (0x80 + r % 64)]

/-- Value of a hexadecimal digit of either case, as in Go `json.getu4`. -/
def hexVal (c : Byte) : Option Nat :=
  if 48 ≤ c.val ∧ c.val ≤ 57 then some (c.val - 48)
  else if 97 ≤ c.val ∧ c.val ≤ 102 then some (c.val - 97 + 10)
  else if 65 ≤ c.val ∧ c.val ≤ 70 then some (c.val - 65 + 10)
  else none

/-- Go `json.getu4`: the rune of a `\uXXXX` escape at the front of `s`, `none`
(Go: -1) when `s` does not start with one. -/
def getu4 (s : GoString) : Option Nat :=
  match s with
  | b0 :: b1 :: h3 :: h2 :: h1 :: h0 :: _ =>
    if b0.val = 92 ∧ b1.val = 117 then
      match hexVal h3, hexVal h2, hexVal h1, hexVal h0 with
      | some d3, some d2, some d1, some d0 => some (((d3 * 16 + d2) * 16 + d1) * 16 + d0)
      | _, _, _, _ => none
    else none
  | _ => none

/-- Go `utf16.DecodeRune`: the rune of a surrogate pair, U+FFFD when the two do
not form one. -/
def utf16DecodeRune (r1 r2 : Nat) : Nat :=
  if 0xD800 ≤ r1 ∧ r1 < 0xDC00 ∧ 0xDC00 ≤ r2 ∧ r2 < 0xE000 then
    (r1 - 0xD800) * 1024 + (r2 - 0xDC00) + 0x10000
  else 0xFFFD

/-- The byte a one-letter JSON escape stands for. -/
def simpleEscape (e : Byte) : Option Byte :=
  if e.val = 34 ∨ e.val = 92 ∨ e.val = 47 then some e
  else if e.val = 98 then some 8
  else if e.val = 102 then some 12
  else if e.val = 110 then some 10
  else if e.val = 114 then some 13
  else if e.val = 116 then some 9
  else none

/-- Puts `out` in front of the bytes a later part of the literal decodes to. -/
def thenBytes (out : GoString) (r : Option (GoString × GoString)) :
    Option (GoString × GoString) :=
  r.map (fun p => (out ++ p.1, p.2))

/-- Modelled from the spec: the body of a JSON string literal, read as Go
`json.unquote` reads it (standard library, outside the sources verified here): from after the
opening quote up to the closing one, giving the decoded bytes and the input that
follows. Escapes are resolved, a raw control character is refused, an invalid
UTF-8 byte becomes U+FFFD. `fuel` bounds the iterations; the length of the input
is always enough. -/
def unquoteLoop : Nat → GoString → Option (GoString × GoString)
  | 0, _ => none
  | _ + 1, [] => none
  | fuel + 1, c :: r =>
    if c.val = 34 then some ([], r)
    else if c.val = 92 then
      match r with
      | [] => none
      | e :: r1 =>
        if e.val = 117 then
          match getu4 (c :: r) with
          | none => none
          | some rr =>
            if 0xD800 ≤ rr ∧ rr < 0xE000 then
              match getu4 (r1.drop 4) with
              | none => thenBytes (EncodeRune 0xFFFD) (unquoteLoop fuel (r1.drop 4))
              | some rr1 =>
                if utf16DecodeRune rr rr1 ≠ 0xFFFD then
                  thenBytes (EncodeRune (utf16DecodeRune rr rr1)) (unquoteLoop fuel (r1.drop 10))
                else thenBytes (EncodeRune 0xFFFD) (unquoteLoop fuel (r1.drop 4))
            else thenBytes (EncodeRune rr) (unquoteLoop fuel (r1.drop 4))
        else
          match simpleEscape e with
          | none => none
          | some b => thenBytes [b] (unquoteLoop fuel r1)
    else if c.val < 0x20 then none
    else if c.val < 0x80 then thenBytes [c] (unquoteLoop fuel r)
    else
      let cs := DecodeRuneInString (c :: r)
      thenBytes (EncodeRune cs.1) (unquoteLoop fuel ((c :: r).drop cs.2))

/-- JSON white space: space, tab, carriage return, line feed. -/
def isSpace (c : Byte) : Bool :=
  c.val == 32 || c.val == 9 || c.val == 13 || c.val == 10

/-- The input after its leading white space. -/
def skipSpace : GoString → GoString
  | [] => []
  | c :: r => if isSpace c then skipSpace r else c :: r

/-- A JSON string literal at the front of the input: its decoded bytes and the
input after the closing quote. -/
def parseString (s : GoString) : Option (GoString × GoString) :=
  match s with
  | [] => none
  | c :: r => if c.val = 34 then unquoteLoop r.length r else none

/-- The members of a JSON object whose values are strings, from the first key to
the closing brace: the members in the order written, and the input after the
brace. -/
def parseMembers : Nat → GoString → Option (List (GoString × GoString) × GoString)
  | 0, _ => none
  | fuel + 1, s =>
    match parseString s with
    | none => none
    | some (key, s1) =>
      match skipSpace s1 with
      | [] => none
      | c :: s2 =>
        if c.val ≠ 58 then none
        else
          match parseString (skipSpace s2) with
          | none => none
          | some (value, s3) =>
            match skipSpace s3 with
            | [] => none
            | d :: s4 =>
              if d.val = 125 then some ([(key, value)], s4)
              else if d.val = 44 then
                (parseMembers fuel (skipSpace s4)).map (fun p => ((key, value) :: p.1, p.2))
              else none

/-- The members of a JSON text that is one object with string values, in the
order written; `none` for any other text. -/
def parseObject (s : GoString) : Option (List (GoString × GoString)) :=
  match skipSpace s with
  | [] => none
  | c :: s1 =>
    if c.val ≠ 123 then none
    else
      match skipSpace s1 with
      | [] => none
      | d :: s2 =>
        if d.val = 125 then (if skipSpace s2 = [] then some [] else none)
        else
          match parseMembers s1.length (d :: s2) with
          | none => none
          | some (members, rest) => if skipSpace rest = [] then some members else none

/-- Modelled from the spec: decoding an annotation payload "to a mapping", as Go
`json.Unmarshal` into a `map[string]string` does for an object with string
values (standard library, outside the sources verified here): each member is assigned to the map in
the order written, so a repeated key keeps its last value. -/
def jsonUnmarshal (data : GoString) : Option StringMap :=
  (parseObject data).map (fun members => members.foldl (fun m kv => mapAssign m kv.1 kv.2) [])

/-- What claim C9 says of `appendNodeAnnotations` on document `conf` with
current-config id `c`: the call returns nil; the file list is the old one
followed by one entry at the identity-annotation path; the source of that entry
decodes (`getDecodedContent`, then JSON) to a map whose entries are exactly the
current-config key with `c`, the desired-config key with `c` and the daemon-state
key with the Done value. -/
def annotationsDecodeTo (k : DaemonConsts) (M : MediaTypeSyntax) (conf : Config)
    (c : GoString) : Prop :=
  (appendNodeAnnotations k conf c).2 = none ∧
  ∃ file : File,
    (appendNodeAnnotations k conf c).1.Storage.Files = conf.Storage.Files ++ [file] ∧
    file.Node.Path = k.InitialNodeAnnotationsFilePath ∧
    ∃ (src payload : GoString) (m : StringMap),
      file.FileEmbedded1.Contents.Source = some src ∧
      getDecodedContent M src = (payload, none) ∧
      jsonUnmarshal payload = some m ∧
      m.Perm [(k.CurrentMachineConfigAnnotationKey, c),
              (k.DesiredMachineConfigAnnotationKey, c),
              (k.MachineConfigDaemonStateAnnotationKey, k.MachineConfigDaemonStateDone)]

/-! ## UTF-8: decoding and encoding one rune -/

/-- The two bytes `b0 b1` are a well-formed two-byte sequence. -/
def isSeq2 (b0 b1 : Byte) : Prop :=
  0xC2 ≤ b0.val ∧ b0.val ≤ 0xDF ∧ 0x80 ≤ b1.val ∧ b1.val ≤ 0xBF

/-- The three bytes are a well-formed three-byte sequence. -/
def isSeq3 (b0 b1 b2 : Byte) : Prop :=
  0xE0 ≤ b0.val ∧ b0.val ≤ 0xEF ∧ 0x80 ≤ b1.val ∧ b1.val ≤ 0xBF ∧
  (b0.val = 0xE0 → 0xA0 ≤ b1.val) ∧ (b0.val = 0xED → b1.val ≤ 0x9F) ∧
  0x80 ≤ b2.val ∧ b2.val ≤ 0xBF

/-- The four bytes are a well-formed four-byte sequence. -/
def isSeq4 (b0 b1 b2 b3 : Byte) : Prop :=
  0xF0 ≤ b0.val ∧ b0.val ≤ 0xF4 ∧ 0x80 ≤ b1.val ∧ b1.val ≤ 0xBF ∧
  (b0.val = 0xF0 → 0x90 ≤ b1.val) ∧ (b0.val = 0xF4 → b1.val ≤ 0x8F) ∧
  0x80 ≤ b2.val ∧ b2.val ≤ 0xBF ∧ 0x80 ≤ b3.val ∧ b3.val ≤ 0xBF

/-! ## Vocabulary of the later claims -/

/-- The unreserved bytes of RFC 2396: letters, digits and the nine marks. -/
def unreservedBytes : GoString :=
  ascii "abcdefghijklmnopqrstuvwxyzABCDEFGHIJKLMNOPQRSTUVWXYZ0123456789-_.!~*\x27()"

/-- The sixteen digits `%02X` writes. -/
def upperHexDigits : GoString := ascii "0123456789ABCDEF"

/-- A printable ASCII byte: from space to tilde. -/
def isPrintableASCII (c : Byte) : Bool := 0x20 ≤ c.val && c.val ≤ 0x7E

/-- The paths of the file entries of a document, in order. -/
def filePaths (conf : Config) : List GoString :=
  conf.Storage.Files.map (fun file => file.Node.Path)

/-- One call of an operation of server.go that writes to a document, with its
arguments. -/
inductive Call where
  /-- A call of `appendNodeAnnotations`. -/
  | nodeAnnotations (currConf : GoString)
  /-- A call of `appendInitialPivot`. -/
  | initialPivot (osimageurl : GoString)
  /-- A call of `appendKubeConfig`. -/
  | kubeConfig (f : kubeconfigFunc)
  /-- A call of `appendFileToIgnition`. -/
  | fileToIgnition (outPath contents : GoString)

/-- The document a call leaves, whether the call returns an error or not. -/
def Call.run (k : DaemonConsts) (conf : Config) : Call → Config
  | .nodeAnnotations currConf => (appendNodeAnnotations k conf currConf).1
  | .initialPivot osimageurl => (appendInitialPivot k conf osimageurl).1
  | .kubeConfig f => (appendKubeConfig conf f).1
  | .fileToIgnition outPath contents => appendFileToIgnition conf outPath contents

/-- The document after a sequence of calls, made one after the other. -/
def runCalls (k : DaemonConsts) (conf : Config) (calls : List Call) : Config :=
  calls.foldl (Call.run k) conf

/-- The file entries and the unit entries of `d` are still there in `d1`, in
front, in the same order and unchanged. -/
def entriesKept (d d1 : Config) : Prop :=
  d.Storage.Files <+: d1.Storage.Files ∧ d.Systemd.Units <+: d1.Systemd.Units

/-- The file entries of a document that stand at the given path, in order. -/
def entriesAt (conf : Config) (path : GoString) : List File :=
  conf.Storage.Files.filter (fun file => decide (file.Node.Path = path))

/-- The file entry `appendFileToIgnition` builds for a path and contents. -/
def fileEntry (outPath contents : GoString) : File :=
  { Node := { Path := outPath },
    FileEmbedded1 := { Contents := { Source := some (getEncodedContent contents) },
                       Mode := some 420 } }

/-- The unit entry `appendInitialPivot` builds. -/
def pivotUnit : igntypes.Unit :=
  { Name := ascii "mcd-write-pivot-reboot.service",
    Enabled := some true,
    Contents := some unitContents }

/-! ## Round trip of the codec -/

set_option maxRecDepth 100000 in
theorem escapeByte_facts : ∀ b : Byte,
    (isUnreserved b = true → b.val < 0x80 ∧ b.val ≠ 37 ∧ isURLCharRune b.val = true) ∧
    isHex (upperHexDigit (b.val / 16)) = true ∧ isHex (upperHexDigit (b.val % 16)) = true ∧
    unhex (upperHexDigit (b.val % 16)) + unhex (upperHexDigit (b.val / 16)) * 16 = b ∧
    (upperHexDigit (b.val / 16)).val < 0x80 ∧ (upperHexDigit (b.val % 16)).val < 0x80 ∧
    isURLCharRune (upperHexDigit (b.val / 16)).val = true ∧
    isURLCharRune (upperHexDigit (b.val % 16)).val = true := by
  decide

theorem ReadRune_ascii (c : Byte) (rest : GoString) (h : c.val < 0x80) :
    ReadRune c rest = (c.val, 1) := by
  simp [ReadRune, h]

theorem DecodeRuneInString_ascii (c : Byte) (rest : GoString) (h : c.val < 0x80) :
    DecodeRuneInString (c :: rest) = (c.val, 1) := by
  simp [DecodeRuneInString, first, h]

theorem Fin_ofNat_val (c : Byte) : (Fin.ofNat c.val : Byte) = c := by
  apply Fin.ext
  simp [Fin.ofNat, Nat.mod_eq_of_lt c.isLt]

theorem Unescape_cons_ascii (c : Byte) (rest : GoString) (h : c.val < 0x80) (hp : c.val ≠ 37) :
    Unescape (c :: rest) = (Unescape rest).map (fun buf => c :: buf) := by
  rw [Unescape.eq_def]
  simp only [ReadRune_ascii c rest h, Fin_ofNat_val]
  simp [hp]

theorem Unescape_percent (eb1 eb0 : Byte) (rest : GoString)
    (h1 : isHex eb1 = true) (h0 : isHex eb0 = true) :
    Unescape (37 :: eb1 :: eb0 :: rest) =
      (Unescape rest).map (fun buf => (unhex eb0 + unhex eb1 * 16) :: buf) := by
  rw [Unescape]
  have h37 : ReadRune 37 (eb1 :: eb0 :: rest) = (37, 1) := ReadRune_ascii 37 _ (by decide)
  simp only [h37]
  simp [h1, h0]

theorem lexData_cons_ascii (c : Byte) (rest : GoString) (h : c.val < 0x80)
    (hu : isURLCharRune c.val = true) : lexData (c :: rest) = lexData rest := by
  rw [lexData, DecodeRuneInString_ascii c rest h]
  simp [hu]

theorem Unescape_escapeByte (b : Byte) (rest : GoString) :
    Unescape (escapeByte b ++ rest) = (Unescape rest).map (fun buf => b :: buf) := by
  obtain ⟨hu, h1, h0, hv, -⟩ := escapeByte_facts b
  unfold escapeByte
  split
  · next h =>
    obtain ⟨ha, hp, -⟩ := hu h
    exact Unescape_cons_ascii b rest ha hp
  · show Unescape (37 :: _ :: _ :: rest) = _
    rw [Unescape_percent _ _ rest h1 h0, hv]

theorem lexData_escapeByte (b : Byte) (rest : GoString) :
    lexData (escapeByte b ++ rest) = lexData rest := by
  obtain ⟨hu, -, -, -, a1, a0, u1, u0⟩ := escapeByte_facts b
  unfold escapeByte
  split
  · next h =>
    obtain ⟨ha, -, hc⟩ := hu h
    exact lexData_cons_ascii b rest ha hc
  · show lexData (37 :: _ :: _ :: rest) = _
    rw [lexData_cons_ascii 37 _ (by decide) (by decide), lexData_cons_ascii _ _ a1 u1,
      lexData_cons_ascii _ _ a0 u0]

theorem Unescape_Escape (x : GoString) : Unescape (Escape x) = .ok x := by
  induction x with
  | nil => rfl
  | cons b data ih => simp [Escape, Unescape_escapeByte, ih, Except.map]

theorem lexData_Escape (x : GoString) : lexData (Escape x) = true := by
  induction x with
  | nil => rfl
  | cons b data ih => simp [Escape, lexData_escapeByte, ih]

theorem getEncodedContent_eq (x : GoString) :
    getEncodedContent x = dataPrefix ++ 44 :: Escape x := by
  rfl

theorem DecodeString_getEncodedContent (M : MediaTypeSyntax) (x : GoString) :
    DecodeString M (getEncodedContent x) = .ok x := by
  have h44 : ((44 : Byte).val = 44) := rfl
  have hp : dataPrefix.isPrefixOf (dataPrefix ++ 44 :: Escape x) = true := by
    simp [List.isPrefixOf_iff_prefix]
  rw [getEncodedContent_eq, DecodeString, if_pos hp, List.drop_left]
  simp [h44, asciiData, lexData_Escape, Unescape_Escape]

theorem getDecodedContent_getEncodedContent (M : MediaTypeSyntax) (x : GoString) :
    getDecodedContent M (getEncodedContent x) = (x, none) := by
  simp [getDecodedContent, DecodeString_getEncodedContent]

/-- C1: for every byte sequence `x` (empty, text or not) and whatever the media-type
syntax of the decoder, `getDecodedContent (getEncodedContent x)` is `x` with a nil
error. -/
theorem C1_decode_encode_roundtrip (M : MediaTypeSyntax) (x : GoString) :
    getDecodedContent M (getEncodedContent x) = (x, none) := by
  simp [getDecodedContent, DecodeString_getEncodedContent]


/-! ## The appenders -/

theorem slice_if_empty {α : Type} (l : List α) : (if l.length = 0 then [] else l) = l := by
  cases l <;> simp

theorem appendFileToIgnition_eq (conf : Config) (outPath contents : GoString) :
    appendFileToIgnition conf outPath contents =
      { conf with
        Storage := { Files := conf.Storage.Files ++
          [{ Node := { Path := outPath },
             FileEmbedded1 := { Contents := { Source := some (getEncodedContent contents) },
                                Mode := some 420 } }] } } := by
  simp only [appendFileToIgnition, slice_if_empty]

theorem appendInitialPivot_eq (k : DaemonConsts) (conf : Config) (t : GoString) (ht : t ≠ []) :
    appendInitialPivot k conf t =
      ({ Ignition := conf.Ignition,
         Storage := { Files := conf.Storage.Files ++
          [{ Node := { Path := k.EtcPivotFile },
             FileEmbedded1 := { Contents := { Source := some (getEncodedContent (t ++ ascii "\n")) },
                                Mode := some 420 } }] },
         Systemd := { Units := conf.Systemd.Units ++
          [{ Name := ascii "mcd-write-pivot-reboot.service",
             Enabled := some true,
             Contents := some unitContents }] } }, none) := by
  simp only [appendInitialPivot, if_neg ht, appendFileToIgnition_eq, slice_if_empty, boolToPtr]

theorem encodeMembers_cons_cons (k v : GoString) (kv : GoString × GoString) (m : StringMap) :
    encodeMembers ((k, v) :: kv :: m) =
      encodeString k ++ [58] ++ encodeString v ++ [44] ++ encodeMembers (kv :: m) := by
  rw [encodeMembers]
  intro h
  simp at h

theorem encodeMapLoop_string (m : StringMap) :
    ∃ tl : GoString, encodeMapLoop .string false m = .ok tl ∧
      ∀ k v : GoString,
        encodeMembers ((k, v) :: m) = encodeString k ++ [58] ++ encodeString v ++ tl := by
  induction m with
  | nil => exact ⟨[], rfl, fun k v => by simp [encodeMembers]⟩
  | cons kv m ih =>
    obtain ⟨k1, v1⟩ := kv
    obtain ⟨tl, htl, hmem⟩ := ih
    refine ⟨[44] ++ encodeString k1 ++ [58] ++ encodeString v1 ++ tl, ?_, fun k v => ?_⟩
    · rw [encodeMapLoop]
      simp only [encodeElem, htl]
      rfl
    · rw [encodeMembers_cons_cons, hmem k1 v1]
      simp

theorem marshalMap_string (m : StringMap) :
    marshalMap .string m = .ok ([123] ++ encodeMembers m ++ [125]) := by
  cases m with
  | nil => rfl
  | cons kv m =>
    obtain ⟨k, v⟩ := kv
    obtain ⟨tl, htl, hmem⟩ := encodeMapLoop_string m
    rw [marshalMap, encodeMapLoop]
    simp only [encodeElem, htl]
    rw [hmem k v]
    simp

theorem marshalMap_unsupported (name : String) (k v : GoString) (m : StringMap) :
    marshalMap (.unsupported name) ((k, v) :: m) =
      .error ("json: unsupported type: " ++ name) := by
  rw [marshalMap, encodeMapLoop]
  simp only [encodeElem]

theorem getNodeAnnotation_eq (k : DaemonConsts) (c : GoString) :
    getNodeAnnotation k c =
      ([123] ++ encodeMembers
        (mapAssign
          (mapAssign (mapAssign [] k.CurrentMachineConfigAnnotationKey c)
            k.DesiredMachineConfigAnnotationKey c)
          k.MachineConfigDaemonStateAnnotationKey k.MachineConfigDaemonStateDone) ++ [125],
       none) := by
  simp only [ getNodeAnnotation, jsonMarshal, marshalMap_string]

theorem appendNodeAnnotations_eq (k : DaemonConsts) (conf : Config) (c : GoString) :
    appendNodeAnnotations k conf c =
      (appendFileToIgnition conf k.InitialNodeAnnotationsFilePath ( getNodeAnnotation k c).1,
       none) := by
  simp only [appendNodeAnnotations, getNodeAnnotation_eq]

theorem appendKubeConfig_ok (conf : Config) (f : kubeconfigFunc) (p s : GoString)
    (h : f () = (p, s, none)) :
    appendKubeConfig conf f = (appendFileToIgnition conf defaultMachineKubeConfPath p, none) := by
  simp only [appendKubeConfig, h]

theorem appendKubeConfig_err (conf : Config) (f : kubeconfigFunc) (p s : GoString) (e : GoError)
    (h : f () = (p, s, some e)) : appendKubeConfig conf f = (conf, some e) := by
  simp only [appendKubeConfig, h]

set_option maxRecDepth 100000 in
theorem unitContents_firstBoot : ascii "ConditionFirstBoot=true" <:+: unitContents := by
  decide

set_option maxRecDepth 100000 in
theorem unitContents_execStart :
    (ascii "ExecStart=/bin/sh -c \x27mkdir /run/pivot && touch " ++ pivotRebootNeeded ++
      ascii "\x27") <:+: unitContents := by
  decide

/-! ## The pipeline -/

theorem Run_succeeding (appenders : List appenderFunc) (document : Config)
    (h : ∀ (i : Nat) (hi : i < appenders.length),
      (appenders[i] (contributions document (appenders.take i))).2 = none) :
    Run document appenders = (contributions document appenders, none) := by
  induction appenders generalizing document with
  | nil => rfl
  | cons a rest ih =>
    have h0 := h 0 (by simp)
    simp only [List.getElem_cons_zero, List.take_zero, contributions, List.foldl_nil] at h0
    have hrest := ih (a document).1 (fun i hi => by
      have := h (i + 1) (by simpa using hi)
      simpa [contributions] using this)
    rw [Run]
    cases hd : a document with
    | mk d e =>
      rw [hd] at h0 hrest
      simp only at h0
      subst h0
      simp only [hrest, contributions, List.foldl_cons, hd]

theorem Run_failing (pre post : List appenderFunc) (a : appenderFunc) (document : Config)
    (e : GoError)
    (hpre : ∀ (i : Nat) (hi : i < pre.length),
      (pre[i] (contributions document (pre.take i))).2 = none)
    (ha : (a (contributions document pre)).2 = some e) :
    Run document (pre ++ a :: post) = ((a (contributions document pre)).1, some e) := by
  induction pre generalizing document with
  | nil =>
    simp only [contributions, List.foldl_nil] at ha
    simp only [List.nil_append, Run, contributions, List.foldl_nil]
    cases hd : a document with
    | mk d e1 =>
      rw [hd] at ha
      simp only at ha
      subst ha
      rfl
  | cons b rest ih =>
    have h0 := hpre 0 (by simp)
    simp only [List.getElem_cons_zero, List.take_zero, contributions, List.foldl_nil] at h0
    have hrest := ih (b document).1 (fun i hi => by
      have := hpre (i + 1) (by simpa using hi)
      simpa [contributions] using this) (by simpa [contributions] using ha)
    rw [List.cons_append, Run]
    cases hd : b document with
    | mk d e1 =>
      rw [hd] at h0 hrest
      simp only at h0
      subst h0
      simp only [hrest, contributions, List.foldl_cons, hd]

/-! ## Claims about the pipeline and the appenders -/

/-- C2: when every appender of `pre` succeeds on the document the ones before it
left and the next appender `a` fails there with error `e`, the run over
`pre ++ a :: post` returns exactly `e`; the document is the one `a` left from the
contributions of `pre` in order; what comes after `a` plays no part: the run is
the same as with nothing after `a`. -/
theorem C2_run_stops_at_first_error (document : Config) (pre post : List appenderFunc)
    (a : appenderFunc) (e : GoError)
    (hpre : ∀ (i : Nat) (hi : i < pre.length),
      (pre[i] (contributions document (pre.take i))).2 = none)
    (ha : (a (contributions document pre)).2 = some e) :
    Run document (pre ++ a :: post) = ((a (contributions document pre)).1, some e) ∧
    Run document (pre ++ a :: post) = Run document (pre ++ [a]) := by
  rw [Run_failing pre post a document e hpre ha, Run_failing pre [] a document e hpre ha]
  exact ⟨rfl, rfl⟩

/-- C2 at `[A1, A2, A3]`: `A1` adds the upgrade marker, `A2` fails, `A3` would add
the kubeconfig. -/
theorem C2_run_stops_at_first_error_witness :
    (Run NewIgnConfig
        ([fun d => appendInitialPivot sampleConsts d (ascii "img")] ++
          (fun d => (d, some "A2 failed")) ::
          [fun d => appendKubeConfig d (fun _ => (ascii "KUBECONFIGDATA", [], none))]) =
      ((appendInitialPivot sampleConsts NewIgnConfig (ascii "img")).1, some "A2 failed")) ∧
    Run NewIgnConfig
        ([fun d => appendInitialPivot sampleConsts d (ascii "img")] ++
          (fun d => (d, some "A2 failed")) ::
          [fun d => appendKubeConfig d (fun _ => (ascii "KUBECONFIGDATA", [], none))]) =
      Run NewIgnConfig
        ([fun d => appendInitialPivot sampleConsts d (ascii "img")] ++
          [fun d => (d, some "A2 failed")]) :=
  C2_run_stops_at_first_error NewIgnConfig
    [fun d => appendInitialPivot sampleConsts d (ascii "img")]
    [fun d => appendKubeConfig d (fun _ => (ascii "KUBECONFIGDATA", [], none))]
    (fun d => (d, some "A2 failed")) "A2 failed"
    (fun i hi => by
      have h0 : i = 0 := by simpa using hi
      subst h0
      rfl)
    rfl

/-- C3: with an empty upgrade target and a retrieval function that succeeds, the
run of `getAppenders` on `NewIgnConfig` returns nil and leaves exactly two file
entries, at the identity-annotation path and at `/etc/kubernetes/kubeconfig` in
this order, and no unit entry. -/
theorem C3_end_to_end_without_upgrade {PoolRequest : Type} (k : DaemonConsts) (cr : PoolRequest)
    (currMachineConfig : GoString) (f : kubeconfigFunc) (p s : GoString)
    (hf : f () = (p, s, none)) :
    (Run NewIgnConfig (getAppenders k cr currMachineConfig f [])).2 = none ∧
    (∃ f1 f2 : File,
      (Run NewIgnConfig (getAppenders k cr currMachineConfig f [])).1.Storage.Files = [f1, f2] ∧
      f1.Node.Path = k.InitialNodeAnnotationsFilePath ∧
      f2.Node.Path = ascii "/etc/kubernetes/kubeconfig") ∧
    (Run NewIgnConfig (getAppenders k cr currMachineConfig f [])).1.Systemd.Units = [] := by
  simp only [getAppenders, Run, appendNodeAnnotations_eq, appendInitialPivot, if_true,
    appendKubeConfig_ok _ f p s hf, appendFileToIgnition_eq, NewIgnConfig, List.nil_append,
    List.cons_append]
  exact ⟨trivial, ⟨_, _, rfl, rfl, rfl⟩, trivial⟩

/-- C3 at the scenario of the spec: config id `cfg-a`, payload `KUBECONFIGDATA`. -/
theorem C3_end_to_end_without_upgrade_witness :
    (Run NewIgnConfig (getAppenders sampleConsts () (ascii "cfg-a")
      (fun _ => (ascii "KUBECONFIGDATA", [], none)) [])).2 = none ∧
    (∃ f1 f2 : File,
      (Run NewIgnConfig (getAppenders sampleConsts () (ascii "cfg-a")
        (fun _ => (ascii "KUBECONFIGDATA", [], none)) [])).1.Storage.Files = [f1, f2] ∧
      f1.Node.Path = sampleConsts.InitialNodeAnnotationsFilePath ∧
      f2.Node.Path = ascii "/etc/kubernetes/kubeconfig") ∧
    (Run NewIgnConfig (getAppenders sampleConsts () (ascii "cfg-a")
      (fun _ => (ascii "KUBECONFIGDATA", [], none)) [])).1.Systemd.Units = [] :=
  C3_end_to_end_without_upgrade sampleConsts () (ascii "cfg-a")
    (fun _ => (ascii "KUBECONFIGDATA", [], none)) (ascii "KUBECONFIGDATA") [] rfl

/-- C4: with a non-empty upgrade target and a retrieval function that succeeds,
the run of `getAppenders` on `NewIgnConfig` returns nil and leaves exactly three
file entries, at the identity-annotation path, the upgrade-target marker path and
`/etc/kubernetes/kubeconfig` in this order, and exactly one unit entry, named
`mcd-write-pivot-reboot.service` and enabled. -/
theorem C4_end_to_end_with_upgrade {PoolRequest : Type} (k : DaemonConsts) (cr : PoolRequest)
    (currMachineConfig osimageurl : GoString) (f : kubeconfigFunc) (p s : GoString)
    (hurl : osimageurl ≠ []) (hf : f () = (p, s, none)) :
    (Run NewIgnConfig (getAppenders k cr currMachineConfig f osimageurl)).2 = none ∧
    (∃ f1 f2 f3 : File,
      (Run NewIgnConfig (getAppenders k cr currMachineConfig f osimageurl)).1.Storage.Files =
        [f1, f2, f3] ∧
      f1.Node.Path = k.InitialNodeAnnotationsFilePath ∧
      f2.Node.Path = k.EtcPivotFile ∧
      f3.Node.Path = ascii "/etc/kubernetes/kubeconfig") ∧
    (∃ u : igntypes.Unit,
      (Run NewIgnConfig (getAppenders k cr currMachineConfig f osimageurl)).1.Systemd.Units = [u] ∧
      u.Name = ascii "mcd-write-pivot-reboot.service" ∧ u.Enabled = some true) := by
  simp only [getAppenders, Run, appendNodeAnnotations_eq, appendInitialPivot_eq _ _ _ hurl,
    appendKubeConfig_ok _ f p s hf, appendFileToIgnition_eq, NewIgnConfig, List.nil_append,
    List.cons_append]
  exact ⟨trivial, ⟨_, _, _, rfl, rfl, rfl, rfl⟩, ⟨_, rfl, rfl, rfl⟩⟩

/-- C4 at the scenario of the spec: upgrade target `quay.io/img:v2`. -/
theorem C4_end_to_end_with_upgrade_witness :
    (Run NewIgnConfig (getAppenders sampleConsts () (ascii "cfg-a")
      (fun _ => (ascii "KUBECONFIGDATA", [], none)) (ascii "quay.io/img:v2"))).2 = none ∧
    (∃ f1 f2 f3 : File,
      (Run NewIgnConfig (getAppenders sampleConsts () (ascii "cfg-a")
        (fun _ => (ascii "KUBECONFIGDATA", [], none)) (ascii "quay.io/img:v2"))).1.Storage.Files =
        [f1, f2, f3] ∧
      f1.Node.Path = sampleConsts.InitialNodeAnnotationsFilePath ∧
      f2.Node.Path = sampleConsts.EtcPivotFile ∧
      f3.Node.Path = ascii "/etc/kubernetes/kubeconfig") ∧
    (∃ u : igntypes.Unit,
      (Run NewIgnConfig (getAppenders sampleConsts () (ascii "cfg-a")
        (fun _ => (ascii "KUBECONFIGDATA", [], none)) (ascii "quay.io/img:v2"))).1.Systemd.Units =
        [u] ∧
      u.Name = ascii "mcd-write-pivot-reboot.service" ∧ u.Enabled = some true) :=
  C4_end_to_end_with_upgrade sampleConsts () (ascii "cfg-a") (ascii "quay.io/img:v2")
    (fun _ => (ascii "KUBECONFIGDATA", [], none)) (ascii "KUBECONFIGDATA") [] (by decide) rfl

/-- C5: `appendFileToIgnition` puts exactly one entry after the old file list,
with the given path, source `getEncodedContent contents` and mode 420 (octal
0644); the file count grows by one whatever the paths already present; the
version tag and the unit list stay as they were. -/
theorem C5_appendFileToIgnition_appends_one (conf : Config) (outPath contents : GoString) :
    (appendFileToIgnition conf outPath contents).Storage.Files =
      conf.Storage.Files ++
        [{ Node := { Path := outPath },
           FileEmbedded1 := { Contents := { Source := some (getEncodedContent contents) },
                              Mode := some 420 } }] ∧
    (420 : Int) = 6 * 8 ^ 2 + 4 * 8 + 4 ∧
    (appendFileToIgnition conf outPath contents).Storage.Files.length =
      conf.Storage.Files.length + 1 ∧
    (appendFileToIgnition conf outPath contents).Ignition.Version = conf.Ignition.Version ∧
    (appendFileToIgnition conf outPath contents).Systemd.Units = conf.Systemd.Units := by
  rw [appendFileToIgnition_eq]
  refine ⟨rfl, by norm_num, by simp, rfl, rfl⟩

/-- C6: with an empty upgrade target `appendInitialPivot` returns nil and hands
back the document it was given, file list and unit list included. -/
theorem C6_appendInitialPivot_empty_target (k : DaemonConsts) (conf : Config) :
    appendInitialPivot k conf [] = (conf, none) ∧
    (appendInitialPivot k conf []).1.Storage.Files = conf.Storage.Files ∧
    (appendInitialPivot k conf []).1.Systemd.Units = conf.Systemd.Units := by
  simp [appendInitialPivot]

/-- C7: with a non-empty upgrade target `t`, `appendInitialPivot` returns nil; the
file list is the old one followed by one entry at `EtcPivotFile` whose source
decodes to `t` and a newline; the unit list is the old one followed by one entry
named `mcd-write-pivot-reboot.service`, enabled, whose body holds
`ConditionFirstBoot=true` and an `ExecStart` line that makes `/run/pivot` and
touches `pivotRebootNeeded`, that is `/run/pivot/reboot-needed`. -/
theorem C7_appendInitialPivot_marker (k : DaemonConsts) (M : MediaTypeSyntax) (conf : Config)
    (t : GoString) (ht : t ≠ []) :
    (appendInitialPivot k conf t).2 = none ∧
    (∃ file : File,
      (appendInitialPivot k conf t).1.Storage.Files = conf.Storage.Files ++ [file] ∧
      file.Node.Path = k.EtcPivotFile ∧
      ∃ src, file.FileEmbedded1.Contents.Source = some src ∧
        getDecodedContent M src = (t ++ [10], none)) ∧
    (∃ (u : igntypes.Unit) (body : GoString),
      (appendInitialPivot k conf t).1.Systemd.Units = conf.Systemd.Units ++ [u] ∧
      u.Name = ascii "mcd-write-pivot-reboot.service" ∧
      u.Enabled = some true ∧
      u.Contents = some body ∧
      ascii "ConditionFirstBoot=true" <:+: body ∧
      (ascii "ExecStart=/bin/sh -c \x27mkdir /run/pivot && touch " ++ pivotRebootNeeded ++
        ascii "\x27") <:+: body ∧
      pivotRebootNeeded = ascii "/run/pivot/reboot-needed") := by
  rw [appendInitialPivot_eq k conf t ht]
  refine ⟨rfl, ⟨_, rfl, rfl, _, rfl, ?_⟩, ⟨_, _, rfl, rfl, rfl, rfl, ?_, ?_, rfl⟩⟩
  · exact getDecodedContent_getEncodedContent M (t ++ [10])
  · exact unitContents_firstBoot
  · exact unitContents_execStart

/-- C7 at the upgrade target `quay.io/img:v2` on the empty document. -/
theorem C7_appendInitialPivot_marker_witness :
    (appendInitialPivot sampleConsts NewIgnConfig (ascii "quay.io/img:v2")).2 = none ∧
    (appendInitialPivot sampleConsts NewIgnConfig (ascii "quay.io/img:v2")).1.Storage.Files.length
      = 1 ∧
    (appendInitialPivot sampleConsts NewIgnConfig (ascii "quay.io/img:v2")).1.Systemd.Units.length
      = 1 := by
  obtain ⟨h1, ⟨file, hf, -⟩, ⟨u, body, hu, -⟩⟩ :=
    C7_appendInitialPivot_marker sampleConsts noMediaType
      NewIgnConfig (ascii "quay.io/img:v2") (by decide)
  exact ⟨h1, by rw [hf]; rfl, by rw [hu]; rfl⟩

/-- C8: when the retrieval function returns a non-nil error, `appendKubeConfig`
returns exactly that error; when it returns payload `p` with a nil error,
`appendKubeConfig` returns nil and the file list is the old one followed by one
entry at `/etc/kubernetes/kubeconfig` whose source decodes to `p`. -/
theorem C8_appendKubeConfig (M : MediaTypeSyntax) (conf : Config) (f : kubeconfigFunc) :
    (∀ (p s : GoString) (e : GoError), f () = (p, s, some e) →
      (appendKubeConfig conf f).2 = some e) ∧
    (∀ (p s : GoString), f () = (p, s, none) →
      (appendKubeConfig conf f).2 = none ∧
      ∃ file : File,
        (appendKubeConfig conf f).1.Storage.Files = conf.Storage.Files ++ [file] ∧
        file.Node.Path = ascii "/etc/kubernetes/kubeconfig" ∧
        ∃ src, file.FileEmbedded1.Contents.Source = some src ∧
          getDecodedContent M src = (p, none)) := by
  constructor
  · intro p s e h
    rw [appendKubeConfig_err conf f p s e h]
  · intro p s h
    rw [appendKubeConfig_ok conf f p s h, appendFileToIgnition_eq]
    exact ⟨rfl, _, rfl, rfl, _, rfl, getDecodedContent_getEncodedContent M p⟩

/-- C8 at a failing and at a succeeding retrieval function on the empty
document. -/
theorem C8_appendKubeConfig_witness :
    (appendKubeConfig NewIgnConfig (fun _ => ([], [], some "no kubeconfig"))).2 =
      some "no kubeconfig" ∧
    (appendKubeConfig NewIgnConfig (fun _ => (ascii "KUBECONFIGDATA", [], none))).2 = none :=
  ⟨(C8_appendKubeConfig noMediaType NewIgnConfig
      (fun _ => ([], [], some "no kubeconfig"))).1 [] [] "no kubeconfig" rfl,
   ((C8_appendKubeConfig noMediaType NewIgnConfig
      (fun _ => (ascii "KUBECONFIGDATA", [], none))).2 (ascii "KUBECONFIGDATA") [] rfl).1⟩

/-! ## Malformed input of the decoder -/

set_option maxRecDepth 100000 in
theorem isHex_ne_percent : ∀ b : Byte, isHex b = true → b.val ≠ 37 := by
  decide

theorem hasInvalidEscape_cons_of_ne (c : Byte) (rest : GoString) (hc : c.val ≠ 37)
    (h : hasInvalidEscape (c :: rest) = true) : hasInvalidEscape rest = true := by
  simpa [hasInvalidEscape, hc] using h

theorem Unescape_error_of_invalid (n : Nat) :
    ∀ body : GoString, body.length ≤ n → hasInvalidEscape body = true →
      ∃ e, Unescape body = .error e := by
  induction n with
  | zero =>
    intro body hlen h
    have : body = [] := List.length_eq_zero.mp (Nat.le_zero.mp hlen)
    subst this
    simp [hasInvalidEscape] at h
  | succ n ih =>
    intro body hlen h
    cases body with
    | nil => simp [hasInvalidEscape] at h
    | cons c rest =>
      rw [Unescape.eq_def]
      simp only
      by_cases h1 : 1 < (ReadRune c rest).2
      · exact ⟨_, if_pos h1⟩
      · rw [if_neg h1]
        by_cases h37 : (ReadRune c rest).1 = 37
        · rw [if_pos h37]
          cases rest with
          | nil => exact ⟨_, rfl⟩
          | cons eb1 rest1 =>
            by_cases hx1 : isHex eb1 = true
            · cases rest1 with
              | nil => simp [hx1]
              | cons eb0 rest2 =>
                by_cases hx0 : isHex eb0 = true
                · have hrest : hasInvalidEscape (eb1 :: eb0 :: rest2) = true := by
                    simpa [hasInvalidEscape, hx1, hx0] using h
                  have hrest2 : hasInvalidEscape rest2 = true :=
                    hasInvalidEscape_cons_of_ne eb0 rest2 (isHex_ne_percent eb0 hx0)
                      (hasInvalidEscape_cons_of_ne eb1 _ (isHex_ne_percent eb1 hx1) hrest)
                  obtain ⟨e, he⟩ := ih rest2 (by simp at hlen ⊢; omega) hrest2
                  exact ⟨e, by simp [hx1, hx0, he, Except.map]⟩
                · simp [hx1, hx0]
            · simp [hx1]
        · rw [if_neg h37]
          have hc : c.val ≠ 37 := by
            intro hc
            apply h37
            rw [ReadRune_ascii c rest (by omega), hc]
          obtain ⟨e, he⟩ := ih rest (by simp at hlen ⊢; omega)
            (hasInvalidEscape_cons_of_ne c rest hc h)
          exact ⟨e, by simp [he, Except.map]⟩

theorem asciiData_error_of_invalid (body : GoString) (h : hasInvalidEscape body = true) :
    ∃ e, asciiData body = .error e := by
  unfold asciiData
  split
  · exact Unescape_error_of_invalid body.length body (Nat.le_refl _) h
  · exact ⟨_, rfl⟩

theorem DecodeString_without_marker (M : MediaTypeSyntax) (inp : GoString)
    (h : ¬ dataPrefix <+: inp) : DecodeString M inp = .error "missing data prefix" := by
  have : ¬ dataPrefix.isPrefixOf inp = true := by
    rw [List.isPrefixOf_iff_prefix]
    exact h
  rw [DecodeString, if_neg this]

theorem DecodeString_comma (M : MediaTypeSyntax) (body : GoString) :
    DecodeString M (dataPrefix ++ 44 :: body) = asciiData body := by
  have h44 : ((44 : Byte).val = 44) := rfl
  have hp : dataPrefix.isPrefixOf (dataPrefix ++ 44 :: body) = true := by
    simp [List.isPrefixOf_iff_prefix]
  rw [DecodeString, if_pos hp, List.drop_left]
  simp [h44]

theorem DecodeString_header (M : MediaTypeSyntax) (r : Byte) (after body : GoString)
    (hr : r.val ≠ 44) (hh : M.lexHeader (r :: after) = .ok (false, body)) :
    DecodeString M (dataPrefix ++ r :: after) = asciiData body := by
  have hp : dataPrefix.isPrefixOf (dataPrefix ++ r :: after) = true := by
    simp [List.isPrefixOf_iff_prefix]
  rw [DecodeString, if_pos hp, List.drop_left]
  simp [hr, hh]

theorem getDecodedContent_of_error (M : MediaTypeSyntax) (inp : GoString) (e : GoError)
    (h : DecodeString M inp = .error e) : getDecodedContent M inp = ([], some e) := by
  simp [getDecodedContent, h]

theorem hasInvalidEscape_mem_percent (body : GoString) (h : hasInvalidEscape body = true) :
    ∃ c ∈ body, c.val = 37 := by
  induction body with
  | nil => simp [hasInvalidEscape] at h
  | cons c rest ih =>
    by_cases hc : c.val = 37
    · exact ⟨c, List.mem_cons_self _ _, hc⟩
    · obtain ⟨d, hd, hd37⟩ := ih (hasInvalidEscape_cons_of_ne c rest hc h)
      exact ⟨d, List.mem_cons_of_mem _ hd, hd37⟩

set_option maxRecDepth 100000 in
theorem isBase64Char_percent : ∀ c : Byte, c.val = 37 → isBase64Char c = false := by
  decide

theorem base64Section_error_of_invalid (M : MediaTypeSyntax) (body : GoString)
    (h : hasInvalidEscape body = true) : ∃ e, base64Section M body = .error e := by
  obtain ⟨c, hc, hc37⟩ := hasInvalidEscape_mem_percent body h
  have hall : ¬ body.all isBase64Char = true := by
    intro hall
    have := List.all_eq_true.mp hall c hc
    rw [isBase64Char_percent c hc37] at this
    exact Bool.noConfusion this
  by_cases hlex : lexData body = true
  · exact ⟨_, by rw [base64Section, if_pos hlex, if_neg hall]⟩
  · exact ⟨_, by rw [base64Section, if_neg hlex]⟩

theorem DecodeString_header_base64 (M : MediaTypeSyntax) (r : Byte) (after body : GoString)
    (hr : r.val ≠ 44) (hh : M.lexHeader (r :: after) = .ok (true, body)) :
    DecodeString M (dataPrefix ++ r :: after) = base64Section M body := by
  have hp : dataPrefix.isPrefixOf (dataPrefix ++ r :: after) = true := by
    simp [List.isPrefixOf_iff_prefix]
  rw [DecodeString, if_pos hp, List.drop_left]
  simp [hr, hh]

theorem DecodeString_header_error (M : MediaTypeSyntax) (r : Byte) (after : GoString)
    (e : GoError) (hr : r.val ≠ 44) (hh : M.lexHeader (r :: after) = .error e) :
    DecodeString M (dataPrefix ++ r :: after) = .error e := by
  have hp : dataPrefix.isPrefixOf (dataPrefix ++ r :: after) = true := by
    simp [List.isPrefixOf_iff_prefix]
  rw [DecodeString, if_pos hp, List.drop_left]
  simp [hr, hh]

theorem input_shapes (inp : GoString) :
    ¬ dataPrefix <+: inp ∨ inp = dataPrefix ∨ (∃ body, inp = dataPrefix ++ 44 :: body) ∨
    (∃ (r : Byte) (after : GoString), r.val ≠ 44 ∧ inp = dataPrefix ++ r :: after) := by
  by_cases hp : dataPrefix <+: inp
  · obtain ⟨t, rfl⟩ := hp
    cases t with
    | nil => exact Or.inr (Or.inl (by simp))
    | cons r after =>
      by_cases hr : r.val = 44
      · have : r = 44 := Fin.ext hr
        subst this
        exact Or.inr (Or.inr (Or.inl ⟨after, rfl⟩))
      · exact Or.inr (Or.inr (Or.inr ⟨r, after, hr, rfl⟩))
  · exact Or.inl hp

/-- C10: `getDecodedContent` returns the empty payload and a non-nil error for
every input that does not start with `data:`, and for every input whose data
section holds a `%` not followed by two hexadecimal digits: the input `data:,body`
with such a body, and every input whose media-type section is read, with or
without the base64 marker, up to such a body. It also fails when the media-type
section is refused and when nothing follows `data:`; every input has one of
these shapes. -/
theorem C10_decode_rejects_malformed (M : MediaTypeSyntax) :
    (∀ inp : GoString, ¬ dataPrefix <+: inp →
      ∃ e, getDecodedContent M inp = ([], some e)) ∧
    (∀ body : GoString, hasInvalidEscape body = true →
      ∃ e, getDecodedContent M (dataPrefix ++ 44 :: body) = ([], some e)) ∧
    (∀ (r : Byte) (after : GoString) (base64 : Bool) (body : GoString), r.val ≠ 44 →
      M.lexHeader (r :: after) = .ok (base64, body) → hasInvalidEscape body = true →
      ∃ e, getDecodedContent M (dataPrefix ++ r :: after) = ([], some e)) ∧
    (∀ (r : Byte) (after : GoString) (e : GoError), r.val ≠ 44 →
      M.lexHeader (r :: after) = .error e →
      getDecodedContent M (dataPrefix ++ r :: after) = ([], some e)) ∧
    (∃ e, getDecodedContent M dataPrefix = ([], some e)) ∧
    (∀ inp : GoString,
      ¬ dataPrefix <+: inp ∨ inp = dataPrefix ∨ (∃ body, inp = dataPrefix ++ 44 :: body) ∨
      (∃ (r : Byte) (after : GoString), r.val ≠ 44 ∧ inp = dataPrefix ++ r :: after)) := by
  refine ⟨fun inp h => ⟨_, getDecodedContent_of_error M inp _ (DecodeString_without_marker M inp h)⟩,
    fun body h => ?_, fun r after base64 body hr hh h => ?_, fun r after e hr hh => ?_,
    ⟨_, getDecodedContent_of_error M _ "missing comma before data" rfl⟩, input_shapes⟩
  · obtain ⟨e, he⟩ := asciiData_error_of_invalid body h
    exact ⟨e, getDecodedContent_of_error M _ e (by rw [DecodeString_comma, he])⟩
  · cases base64 with
    | false =>
      obtain ⟨e, he⟩ := asciiData_error_of_invalid body h
      exact ⟨e, getDecodedContent_of_error M _ e
        (by rw [DecodeString_header M r after body hr hh, he])⟩
    | true =>
      obtain ⟨e, he⟩ := base64Section_error_of_invalid M body h
      exact ⟨e, getDecodedContent_of_error M _ e
        (by rw [DecodeString_header_base64 M r after body hr hh, he])⟩
  · exact getDecodedContent_of_error M _ e (DecodeString_header_error M r after e hr hh)

/-- C10 at `x` (no scheme marker), at `data:,%4` and `data:,a%zz` (a `%` without
two hexadecimal digits), and, with a syntax that reads media types, at
`data:text/plain,%zz` and at `data:;base64,%zz`. -/
theorem C10_decode_rejects_malformed_witness :
    (∃ e, getDecodedContent noMediaType (ascii "x") = ([], some e)) ∧
    (∃ e, getDecodedContent noMediaType (dataPrefix ++ 44 :: ascii "%4") = ([], some e)) ∧
    (∃ e, getDecodedContent noMediaType (dataPrefix ++ 44 :: ascii "a%zz") = ([], some e)) ∧
    (anyMediaType.lexHeader (ascii "text/plain,%zz") = .ok (false, ascii "%zz") ∧
      ∃ e, getDecodedContent anyMediaType (ascii "data:text/plain,%zz") = ([], some e)) ∧
    (anyMediaType.lexHeader (ascii ";base64,%zz") = .ok (true, ascii "%zz") ∧
      ∃ e, getDecodedContent anyMediaType (ascii "data:;base64,%zz") = ([], some e)) :=
  ⟨(C10_decode_rejects_malformed noMediaType).1 (ascii "x") (by decide),
   (C10_decode_rejects_malformed noMediaType).2.1 (ascii "%4") (by decide),
   (C10_decode_rejects_malformed noMediaType).2.1 (ascii "a%zz") (by decide),
   ⟨rfl, (C10_decode_rejects_malformed anyMediaType).2.2.1 116 (ascii "ext/plain,%zz")
      false (ascii "%zz") (by decide) rfl (by decide)⟩,
   ⟨rfl, (C10_decode_rejects_malformed anyMediaType).2.2.1 59 (ascii "base64,%zz")
      true (ascii "%zz") (by decide) rfl (by decide)⟩⟩

/-! ## UTF-8: decoding and encoding one rune, lemmas -/

set_option maxRecDepth 100000 in
theorem first_cases : ∀ b0 : Byte,
    (first b0 = .as ∧ b0.val < 0x80) ∨
    (first b0 = .xx ∧ (b0.val < 0xC2 ∨ 0xF5 ≤ b0.val)) ∨
    (first b0 = .seq 2 0x80 0xBF ∧ 0xC2 ≤ b0.val ∧ b0.val ≤ 0xDF) ∨
    (first b0 = .seq 3 0xA0 0xBF ∧ b0.val = 0xE0) ∨
    (first b0 = .seq 3 0x80 0xBF ∧ 0xE1 ≤ b0.val ∧ b0.val ≤ 0xEF ∧ b0.val ≠ 0xED) ∨
    (first b0 = .seq 3 0x80 0x9F ∧ b0.val = 0xED) ∨
    (first b0 = .seq 4 0x90 0xBF ∧ b0.val = 0xF0) ∨
    (first b0 = .seq 4 0x80 0xBF ∧ 0xF1 ≤ b0.val ∧ b0.val ≤ 0xF3) ∨
    (first b0 = .seq 4 0x80 0x8F ∧ b0.val = 0xF4) := by
  decide

theorem DecodeRuneInString_seq (b0 : Byte) (t : GoString) (sz lo hi : Nat)
    (hf : first b0 = .seq sz lo hi) :
    DecodeRuneInString (b0 :: t) =
      if t.length + 1 < sz then (RuneError, 1)
      else if (t.getD 0 0).val < lo ∨ hi < (t.getD 0 0).val then (RuneError, 1)
      else if sz ≤ 2 then ((b0.val % 32) * 64 + (t.getD 0 0).val % 64, 2)
      else if (t.getD 1 0).val < 0x80 ∨ 0xBF < (t.getD 1 0).val then (RuneError, 1)
      else if sz ≤ 3 then
        ((b0.val % 16) * 4096 + ((t.getD 0 0).val % 64) * 64 + (t.getD 1 0).val % 64, 3)
      else if (t.getD 2 0).val < 0x80 ∨ 0xBF < (t.getD 2 0).val then (RuneError, 1)
      else ((b0.val % 8) * 262144 + ((t.getD 0 0).val % 64) * 4096 +
        ((t.getD 1 0).val % 64) * 64 + (t.getD 2 0).val % 64, 4) := by
  simp only [DecodeRuneInString, hf, List.getD_cons_succ, List.length_cons]

theorem DecodeRuneInString_xx (b0 : Byte) (t : GoString) (hf : first b0 = .xx) :
    DecodeRuneInString (b0 :: t) = (RuneError, 1) := by
  simp only [DecodeRuneInString, hf]

theorem first_of_seq3 (b0 b1 : Byte) (h1 : 0xE0 ≤ b0.val) (h2 : b0.val ≤ 0xEF)
    (h3 : 0x80 ≤ b1.val) (h4 : b1.val ≤ 0xBF) (h5 : b0.val = 0xE0 → 0xA0 ≤ b1.val)
    (h6 : b0.val = 0xED → b1.val ≤ 0x9F) :
    ∃ lo hi, first b0 = .seq 3 lo hi ∧ lo ≤ b1.val ∧ b1.val ≤ hi := by
  rcases first_cases b0 with h | h | h | h | h | h | h | h | h
  · omega
  · omega
  · omega
  · exact ⟨_, _, h.1, by omega, by omega⟩
  · exact ⟨_, _, h.1, by omega, by omega⟩
  · exact ⟨_, _, h.1, by omega, by omega⟩
  · omega
  · omega
  · omega

theorem first_of_seq4 (b0 b1 : Byte) (h1 : 0xF0 ≤ b0.val) (h2 : b0.val ≤ 0xF4)
    (h3 : 0x80 ≤ b1.val) (h4 : b1.val ≤ 0xBF) (h5 : b0.val = 0xF0 → 0x90 ≤ b1.val)
    (h6 : b0.val = 0xF4 → b1.val ≤ 0x8F) :
    ∃ lo hi, first b0 = .seq 4 lo hi ∧ lo ≤ b1.val ∧ b1.val ≤ hi := by
  rcases first_cases b0 with h | h | h | h | h | h | h | h | h
  · omega
  · omega
  · omega
  · omega
  · omega
  · omega
  · exact ⟨_, _, h.1, by omega, by omega⟩
  · exact ⟨_, _, h.1, by omega, by omega⟩
  · exact ⟨_, _, h.1, by omega, by omega⟩

theorem DecodeRuneInString_seq2 (b0 b1 : Byte) (X : GoString) (h : isSeq2 b0 b1) :
    DecodeRuneInString (b0 :: b1 :: X) = ((b0.val % 32) * 64 + b1.val % 64, 2) := by
  obtain ⟨h1, h2, h3, h4⟩ := h
  have hf : first b0 = .seq 2 0x80 0xBF := by
    unfold first
    rw [if_neg (by omega), if_neg (by omega), if_pos (by omega)]
  rw [DecodeRuneInString_seq b0 _ _ _ _ hf]
  simp only [List.getD_cons_zero, List.length_cons]
  rw [if_neg (by omega), if_neg (by omega), if_pos (by omega)]

theorem DecodeRuneInString_seq3 (b0 b1 b2 : Byte) (X : GoString) (h : isSeq3 b0 b1 b2) :
    DecodeRuneInString (b0 :: b1 :: b2 :: X) =
      ((b0.val % 16) * 4096 + (b1.val % 64) * 64 + b2.val % 64, 3) := by
  obtain ⟨h1, h2, h3, h4, h5, h6, h7, h8⟩ := h
  obtain ⟨lo, hi, hf, hlo, hhi⟩ := first_of_seq3 b0 b1 h1 h2 h3 h4 h5 h6
  rw [DecodeRuneInString_seq b0 _ _ _ _ hf]
  simp only [List.getD_cons_zero, List.getD_cons_succ, List.length_cons]
  rw [if_neg (by omega), if_neg (by omega), if_neg (by omega), if_neg (by omega),
    if_pos (by omega)]

theorem DecodeRuneInString_seq4 (b0 b1 b2 b3 : Byte) (X : GoString) (h : isSeq4 b0 b1 b2 b3) :
    DecodeRuneInString (b0 :: b1 :: b2 :: b3 :: X) =
      ((b0.val % 8) * 262144 + (b1.val % 64) * 4096 + (b2.val % 64) * 64 + b3.val % 64, 4) := by
  obtain ⟨h1, h2, h3, h4, h5, h6, h7, h8, h9, h10⟩ := h
  obtain ⟨lo, hi, hf, hlo, hhi⟩ := first_of_seq4 b0 b1 h1 h2 h3 h4 h5 h6
  rw [DecodeRuneInString_seq b0 _ _ _ _ hf]
  simp only [List.getD_cons_zero, List.getD_cons_succ, List.length_cons]
  rw [if_neg (by omega), if_neg (by omega), if_neg (by omega), if_neg (by omega),
    if_neg (by omega), if_neg (by omega)]

theorem not_valid_RuneError : ¬ ¬ (((RuneError, 1) : Nat × Nat).1 = RuneError ∧
    ((RuneError, 1) : Nat × Nat).2 = 1) := fun h => h ⟨rfl, rfl⟩

theorem valid_seq2 (b0 : Byte) (t : GoString) (lo hi : Nat) (hf : first b0 = .seq 2 lo hi)
    (hv : ¬ ((DecodeRuneInString (b0 :: t)).1 = RuneError ∧
      (DecodeRuneInString (b0 :: t)).2 = 1)) :
    ∃ b1 X, t = b1 :: X ∧ lo ≤ b1.val ∧ b1.val ≤ hi := by
  rw [DecodeRuneInString_seq b0 t _ _ _ hf] at hv
  rcases t with _ | ⟨b1, X⟩
  · rw [if_pos (by simp)] at hv
    exact (not_valid_RuneError hv).elim
  · simp only [List.length_cons, List.getD_cons_zero] at hv
    by_cases h1 : b1.val < lo ∨ hi < b1.val
    · rw [if_neg (by omega), if_pos h1] at hv
      exact (not_valid_RuneError hv).elim
    · exact ⟨b1, X, rfl, by omega, by omega⟩

theorem valid_seq3 (b0 : Byte) (t : GoString) (lo hi : Nat) (hf : first b0 = .seq 3 lo hi)
    (hv : ¬ ((DecodeRuneInString (b0 :: t)).1 = RuneError ∧
      (DecodeRuneInString (b0 :: t)).2 = 1)) :
    ∃ b1 b2 X, t = b1 :: b2 :: X ∧ lo ≤ b1.val ∧ b1.val ≤ hi ∧
      0x80 ≤ b2.val ∧ b2.val ≤ 0xBF := by
  rw [DecodeRuneInString_seq b0 t _ _ _ hf] at hv
  rcases t with _ | ⟨b1, _ | ⟨b2, X⟩⟩
  · rw [if_pos (by simp)] at hv
    exact (not_valid_RuneError hv).elim
  · rw [if_pos (by simp)] at hv
    exact (not_valid_RuneError hv).elim
  · simp only [List.length_cons, List.getD_cons_zero, List.getD_cons_succ] at hv
    by_cases h1 : b1.val < lo ∨ hi < b1.val
    · rw [if_neg (by omega), if_pos h1] at hv
      exact (not_valid_RuneError hv).elim
    · by_cases h2 : b2.val < 0x80 ∨ 0xBF < b2.val
      · rw [if_neg (by omega), if_neg h1, if_neg (by omega), if_pos h2] at hv
        exact (not_valid_RuneError hv).elim
      · exact ⟨b1, b2, X, rfl, by omega, by omega, by omega, by omega⟩

theorem valid_seq4 (b0 : Byte) (t : GoString) (lo hi : Nat) (hf : first b0 = .seq 4 lo hi)
    (hv : ¬ ((DecodeRuneInString (b0 :: t)).1 = RuneError ∧
      (DecodeRuneInString (b0 :: t)).2 = 1)) :
    ∃ b1 b2 b3 X, t = b1 :: b2 :: b3 :: X ∧ lo ≤ b1.val ∧ b1.val ≤ hi ∧
      0x80 ≤ b2.val ∧ b2.val ≤ 0xBF ∧ 0x80 ≤ b3.val ∧ b3.val ≤ 0xBF := by
  rw [DecodeRuneInString_seq b0 t _ _ _ hf] at hv
  rcases t with _ | ⟨b1, _ | ⟨b2, _ | ⟨b3, X⟩⟩⟩
  · rw [if_pos (by simp)] at hv
    exact (not_valid_RuneError hv).elim
  · rw [if_pos (by simp)] at hv
    exact (not_valid_RuneError hv).elim
  · rw [if_pos (by simp)] at hv
    exact (not_valid_RuneError hv).elim
  · simp only [List.length_cons, List.getD_cons_zero, List.getD_cons_succ] at hv
    by_cases h1 : b1.val < lo ∨ hi < b1.val
    · rw [if_neg (by omega), if_pos h1] at hv
      exact (not_valid_RuneError hv).elim
    · by_cases h2 : b2.val < 0x80 ∨ 0xBF < b2.val
      · rw [if_neg (by omega), if_neg h1, if_neg (by omega), if_pos h2] at hv
        exact (not_valid_RuneError hv).elim
      · by_cases h3 : b3.val < 0x80 ∨ 0xBF < b3.val
        · rw [if_neg (by omega), if_neg h1, if_neg (by omega), if_neg h2, if_neg (by omega),
            if_pos h3] at hv
          exact (not_valid_RuneError hv).elim
        · exact ⟨b1, b2, b3, X, rfl, by omega, by omega, by omega, by omega, by omega, by omega⟩

theorem DecodeRuneInString_valid_cases (b0 : Byte) (t : GoString) (hb : 0x80 ≤ b0.val)
    (hv : ¬ ((DecodeRuneInString (b0 :: t)).1 = RuneError ∧
      (DecodeRuneInString (b0 :: t)).2 = 1)) :
    (∃ b1 X, t = b1 :: X ∧ isSeq2 b0 b1) ∨
    (∃ b1 b2 X, t = b1 :: b2 :: X ∧ isSeq3 b0 b1 b2) ∨
    (∃ b1 b2 b3 X, t = b1 :: b2 :: b3 :: X ∧ isSeq4 b0 b1 b2 b3) := by
  rcases first_cases b0 with h | h | h | h | h | h | h | h | h
  · omega
  · rw [DecodeRuneInString_xx b0 t h.1] at hv
    exact (not_valid_RuneError hv).elim
  · obtain ⟨b1, X, ht, h1, h2⟩ := valid_seq2 b0 t _ _ h.1 hv
    exact Or.inl ⟨b1, X, ht, by unfold isSeq2; omega⟩
  · obtain ⟨b1, b2, X, ht, h1, h2, h3, h4⟩ := valid_seq3 b0 t _ _ h.1 hv
    exact Or.inr (Or.inl ⟨b1, b2, X, ht, by unfold isSeq3; omega⟩)
  · obtain ⟨b1, b2, X, ht, h1, h2, h3, h4⟩ := valid_seq3 b0 t _ _ h.1 hv
    exact Or.inr (Or.inl ⟨b1, b2, X, ht, by unfold isSeq3; omega⟩)
  · obtain ⟨b1, b2, X, ht, h1, h2, h3, h4⟩ := valid_seq3 b0 t _ _ h.1 hv
    exact Or.inr (Or.inl ⟨b1, b2, X, ht, by unfold isSeq3; omega⟩)
  · obtain ⟨b1, b2, b3, X, ht, h1, h2, h3, h4, h5, h6⟩ := valid_seq4 b0 t _ _ h.1 hv
    exact Or.inr (Or.inr ⟨b1, b2, b3, X, ht, by unfold isSeq4; omega⟩)
  · obtain ⟨b1, b2, b3, X, ht, h1, h2, h3, h4, h5, h6⟩ := valid_seq4 b0 t _ _ h.1 hv
    exact Or.inr (Or.inr ⟨b1, b2, b3, X, ht, by unfold isSeq4; omega⟩)
  · obtain ⟨b1, b2, b3, X, ht, h1, h2, h3, h4, h5, h6⟩ := valid_seq4 b0 t _ _ h.1 hv
    exact Or.inr (Or.inr ⟨b1, b2, b3, X, ht, by unfold isSeq4; omega⟩)

theorem Fin_ofNat_eq (n : Nat) (b : Byte) (h : n = b.val) : (Fin.ofNat n : Byte) = b := by
  subst h
  exact Fin_ofNat_val b

theorem EncodeRune_ascii (b : Byte) (h : b.val < 0x80) : EncodeRune b.val = [b] := by
  unfold EncodeRune
  rw [if_pos (by omega), Fin_ofNat_val]

theorem EncodeRune_seq2 (b0 b1 : Byte) (h : isSeq2 b0 b1) :
    EncodeRune ((b0.val % 32) * 64 + b1.val % 64) = [b0, b1] := by
  obtain ⟨h1, h2, h3, h4⟩ := h
  unfold EncodeRune
  rw [if_neg (by omega), if_pos (by omega),
    Fin_ofNat_eq _ b0 (by omega), Fin_ofNat_eq _ b1 (by omega)]

theorem EncodeRune_seq3 (b0 b1 b2 : Byte) (h : isSeq3 b0 b1 b2) :
    EncodeRune ((b0.val % 16) * 4096 + (b1.val % 64) * 64 + b2.val % 64) = [b0, b1, b2] := by
  obtain ⟨h1, h2, h3, h4, h5, h6, h7, h8⟩ := h
  unfold EncodeRune
  rw [if_neg (by omega), if_neg (by omega), if_neg (by omega), if_pos (by omega),
    Fin_ofNat_eq _ b0 (by omega), Fin_ofNat_eq _ b1 (by omega), Fin_ofNat_eq _ b2 (by omega)]

theorem EncodeRune_seq4 (b0 b1 b2 b3 : Byte) (h : isSeq4 b0 b1 b2 b3) :
    EncodeRune ((b0.val % 8) * 262144 + (b1.val % 64) * 4096 + (b2.val % 64) * 64 + b3.val % 64)
      = [b0, b1, b2, b3] := by
  obtain ⟨h1, h2, h3, h4, h5, h6, h7, h8, h9, h10⟩ := h
  unfold EncodeRune
  rw [if_neg (by omega), if_neg (by omega), if_neg (by omega), if_neg (by omega),
    Fin_ofNat_eq _ b0 (by omega), Fin_ofNat_eq _ b1 (by omega), Fin_ofNat_eq _ b2 (by omega),
    Fin_ofNat_eq _ b3 (by omega)]

/-! ## JSON string literals: reading back what `encodeString` wrote -/

theorem getu4_cons (a b c e : Byte) (X : GoString) :
    getu4 (92 :: 117 :: a :: b :: c :: e :: X) = getu4 [92, 117, a, b, c, e] := rfl

theorem unquoteLoop_plain (d : Nat) (c : Byte) (X : GoString) (h34 : c.val ≠ 34)
    (h92 : c.val ≠ 92) (h20 : ¬ c.val < 0x20) (h80 : c.val < 0x80) :
    unquoteLoop (d + 1) (c :: X) = thenBytes [c] (unquoteLoop d X) := by
  rw [unquoteLoop.eq_def]
  simp only
  rw [if_neg h34, if_neg h92, if_neg h20, if_pos h80]

theorem unquoteLoop_simple (d : Nat) (e b : Byte) (X : GoString) (he : e.val ≠ 117)
    (hs : simpleEscape e = some b) :
    unquoteLoop (d + 1) (92 :: e :: X) = thenBytes [b] (unquoteLoop d X) := by
  rw [unquoteLoop, if_neg (by decide), if_pos (by decide)]
  simp only [if_neg he, hs]

theorem unquoteLoop_u (d : Nat) (a b c e : Byte) (X : GoString) (n : Nat)
    (hn : getu4 [92, 117, a, b, c, e] = some n) (hs : ¬ (0xD800 ≤ n ∧ n < 0xE000)) :
    unquoteLoop (d + 1) (92 :: 117 :: a :: b :: c :: e :: X) =
      thenBytes (EncodeRune n) (unquoteLoop d X) := by
  rw [unquoteLoop, if_neg (by decide), if_pos (by decide)]
  simp only [getu4_cons, hn, if_neg hs, List.drop_succ_cons, List.drop_zero]
  rw [if_pos (by decide)]

theorem unquoteLoop_rune (d : Nat) (c : Byte) (X : GoString) (h80 : 0x80 ≤ c.val) :
    unquoteLoop (d + 1) (c :: X) =
      thenBytes (EncodeRune (DecodeRuneInString (c :: X)).1)
        (unquoteLoop d ((c :: X).drop (DecodeRuneInString (c :: X)).2)) := by
  rw [unquoteLoop.eq_def]
  simp only
  rw [if_neg (by omega), if_neg (by omega), if_neg (by omega), if_neg (by omega)]

theorem unquoteLoop_quote (d : Nat) (X : GoString) :
    unquoteLoop (d + 1) (34 :: X) = some ([], X) := by
  rw [unquoteLoop.eq_def]
  simp only
  rw [if_pos (by decide)]

set_option maxRecDepth 100000 in
theorem htmlSafeSet_facts : ∀ b : Byte, htmlSafeSet b = true →
    b.val ≠ 34 ∧ b.val ≠ 92 ∧ ¬ b.val < 0x20 ∧ b.val < 0x80 := by
  decide

set_option maxRecDepth 100000 in
theorem jsonEscapeASCII_facts : ∀ b : Byte, b.val < 0x80 → htmlSafeSet b = false →
    (∃ e : Byte, jsonEscapeASCII b = [92, e] ∧ e.val ≠ 117 ∧ simpleEscape e = some b) ∨
    (jsonEscapeASCII b = [92, 117, 48, 48, lowerHexDigit (b.val / 16), lowerHexDigit (b.val % 16)] ∧
      getu4 [92, 117, 48, 48, lowerHexDigit (b.val / 16), lowerHexDigit (b.val % 16)] =
        some b.val) := by
  decide

theorem valid_rune_split (b : Byte) (t : GoString) (hb : 0x80 ≤ b.val)
    (hv : ¬ ((DecodeRuneInString (b :: t)).1 = RuneError ∧
      (DecodeRuneInString (b :: t)).2 = 1)) :
    ∃ (t1 post : GoString) (r : Nat), t = t1 ++ post ∧ 1 ≤ t1.length ∧
      (∀ Y, DecodeRuneInString (b :: (t1 ++ Y)) = (r, t1.length + 1)) ∧
      EncodeRune r = b :: t1 := by
  rcases DecodeRuneInString_valid_cases b t hb hv with
    ⟨b1, X, ht, h⟩ | ⟨b1, b2, X, ht, h⟩ | ⟨b1, b2, b3, X, ht, h⟩
  · exact ⟨[b1], X, _, ht, by simp, fun Y => DecodeRuneInString_seq2 b b1 Y h,
      EncodeRune_seq2 b b1 h⟩
  · exact ⟨[b1, b2], X, _, ht, by simp, fun Y => DecodeRuneInString_seq3 b b1 b2 Y h,
      EncodeRune_seq3 b b1 b2 h⟩
  · exact ⟨[b1, b2, b3], X, _, ht, by simp, fun Y => DecodeRuneInString_seq4 b b1 b2 b3 Y h,
      EncodeRune_seq4 b b1 b2 b3 h⟩

theorem encodeStringLoop_ascii (fuel : Nat) (b : Byte) (t : GoString) (hb : b.val < 0x80) :
    encodeStringLoop (fuel + 1) (b :: t) =
      (if htmlSafeSet b then [b] else jsonEscapeASCII b) ++ encodeStringLoop fuel t := by
  rw [encodeStringLoop, if_pos hb]

theorem encodeStringLoop_rune (fuel : Nat) (b : Byte) (t1 post : GoString) (r : Nat)
    (hb : 0x80 ≤ b.val) (hd : DecodeRuneInString (b :: (t1 ++ post)) = (r, t1.length + 1))
    (h1 : 1 ≤ t1.length) :
    encodeStringLoop (fuel + 1) (b :: (t1 ++ post)) =
      (if r = 0x2028 ∨ r = 0x2029 then [92, 117, 50, 48, 50, lowerHexDigit (r % 16)]
        else b :: t1) ++ encodeStringLoop fuel post := by
  rw [encodeStringLoop, if_neg (by omega)]
  simp only [hd]
  rw [if_neg (by omega)]
  have htake : (b :: (t1 ++ post)).take (t1.length + 1) = b :: t1 := by
    simp
  have hdrop : (b :: (t1 ++ post)).drop (t1.length + 1) = post := by
    simp
  rw [htake, hdrop]
  split_ifs <;> rfl

theorem validLoop_ascii (fuel : Nat) (b : Byte) (t : GoString) (hb : b.val < 0x80) :
    validLoop (fuel + 1) (b :: t) = validLoop fuel t := by
  rw [validLoop]
  simp only [DecodeRuneInString_ascii b t hb]
  rw [if_neg (by unfold RuneError; omega)]
  rfl

theorem validLoop_rune_valid (fuel : Nat) (b : Byte) (t : GoString)
    (h : validLoop (fuel + 1) (b :: t) = true) :
    ¬ ((DecodeRuneInString (b :: t)).1 = RuneError ∧ (DecodeRuneInString (b :: t)).2 = 1) := by
  intro hbad
  rw [validLoop] at h
  simp only [hbad, and_self, if_true] at h
  exact Bool.noConfusion h

theorem validLoop_rune (fuel : Nat) (b : Byte) (t1 post : GoString) (r : Nat)
    (hd : DecodeRuneInString (b :: (t1 ++ post)) = (r, t1.length + 1)) (h1 : 1 ≤ t1.length) :
    validLoop (fuel + 1) (b :: (t1 ++ post)) = validLoop fuel post := by
  rw [validLoop]
  simp only [hd]
  rw [if_neg (by omega)]
  simp

theorem unquoteLoop_encoded_ascii (d : Nat) (b : Byte) (X : GoString) (hb : b.val < 0x80) :
    unquoteLoop (d + 1) ((if htmlSafeSet b then [b] else jsonEscapeASCII b) ++ X) =
      thenBytes [b] (unquoteLoop d X) := by
  by_cases hs : htmlSafeSet b = true
  · obtain ⟨h1, h2, h3, h4⟩ := htmlSafeSet_facts b hs
    rw [if_pos hs]
    exact unquoteLoop_plain d b X h1 h2 h3 h4
  · rw [if_neg hs]
    rcases jsonEscapeASCII_facts b hb (by simpa using hs) with ⟨e, he, h117, hse⟩ | ⟨he, hu⟩
    · rw [he]
      exact unquoteLoop_simple d e b X h117 hse
    · rw [he]
      show unquoteLoop (d + 1) (92 :: 117 :: 48 :: 48 :: _ :: _ :: X) = _
      rw [unquoteLoop_u d _ _ _ _ X b.val hu (by omega), EncodeRune_ascii b hb]

theorem unquoteLoop_encoded_rune (d : Nat) (b : Byte) (t1 X : GoString) (r : Nat)
    (hb : 0x80 ≤ b.val) (hd : ∀ Y, DecodeRuneInString (b :: (t1 ++ Y)) = (r, t1.length + 1))
    (he : EncodeRune r = b :: t1) :
    unquoteLoop (d + 1)
        ((if r = 0x2028 ∨ r = 0x2029 then [92, 117, 50, 48, 50, lowerHexDigit (r % 16)]
          else b :: t1) ++ X) =
      thenBytes (b :: t1) (unquoteLoop d X) := by
  by_cases hr : r = 0x2028 ∨ r = 0x2029
  · rw [if_pos hr]
    show unquoteLoop (d + 1) (92 :: 117 :: 50 :: 48 :: 50 :: _ :: X) = _
    have hu : getu4 [92, 117, 50, 48, 50, lowerHexDigit (r % 16)] = some r := by
      rcases hr with hr | hr <;> subst hr <;> decide
    rw [unquoteLoop_u d _ _ _ _ X r hu (by omega), he]
  · rw [if_neg hr]
    show unquoteLoop (d + 1) (b :: (t1 ++ X)) = _
    rw [unquoteLoop_rune d b _ hb, hd X, he]
    simp

theorem thenBytes_some (out s X : GoString) :
    thenBytes out (some (s, X)) = some (out ++ s, X) := rfl

theorem unquoteLoop_encodeStringLoop (fuel : Nat) :
    ∀ s : GoString, s.length ≤ fuel → validLoop fuel s = true →
      ∀ (d : Nat) (X : GoString), (encodeStringLoop fuel s).length < d →
        unquoteLoop d (encodeStringLoop fuel s ++ 34 :: X) = some (s, X) := by
  induction fuel with
  | zero =>
    intro s hlen _ d X hd
    have hs : s = [] := List.length_eq_zero.mp (Nat.le_zero.mp hlen)
    subst hs
    obtain ⟨d1, rfl⟩ : ∃ d1, d = d1 + 1 := ⟨d - 1, by simp [encodeStringLoop] at hd; omega⟩
    simp only [encodeStringLoop, List.nil_append]
    exact unquoteLoop_quote d1 X
  | succ fuel ih =>
    intro s hlen hvalid d X hd
    cases s with
    | nil =>
      obtain ⟨d1, rfl⟩ : ∃ d1, d = d1 + 1 := ⟨d - 1, by simp [encodeStringLoop] at hd; omega⟩
      simp only [encodeStringLoop, List.nil_append]
      exact unquoteLoop_quote d1 X
    | cons b t =>
      by_cases hb : b.val < 0x80
      · rw [encodeStringLoop_ascii fuel b t hb] at hd ⊢
        rw [validLoop_ascii fuel b t hb] at hvalid
        have hne : 1 ≤ (if htmlSafeSet b then [b] else jsonEscapeASCII b).length := by
          split_ifs
          · simp
          · unfold jsonEscapeASCII
            split_ifs <;> simp
        rw [List.length_append] at hd
        obtain ⟨d1, rfl⟩ : ∃ d1, d = d1 + 1 := ⟨d - 1, by omega⟩
        rw [List.append_assoc, unquoteLoop_encoded_ascii d1 b _ hb,
          ih t (by simp at hlen; omega) hvalid d1 X (by omega), thenBytes_some]
        rfl
      · have hv := validLoop_rune_valid fuel b t hvalid
        obtain ⟨t1, post, r, ht, h1, hdec, henc⟩ := valid_rune_split b t (by omega) hv
        subst ht
        rw [encodeStringLoop_rune fuel b t1 post r (by omega) (hdec post) h1] at hd ⊢
        rw [validLoop_rune fuel b t1 post r (hdec post) h1] at hvalid
        have hne : 1 ≤ (if r = 0x2028 ∨ r = 0x2029 then
            [92, 117, 50, 48, 50, lowerHexDigit (r % 16)] else b :: t1).length := by
          split_ifs <;> simp
        rw [List.length_append] at hd
        obtain ⟨d1, rfl⟩ : ∃ d1, d = d1 + 1 := ⟨d - 1, by omega⟩
        rw [List.append_assoc, unquoteLoop_encoded_rune d1 b t1 _ r (by omega) hdec henc,
          ih post (by simp at hlen; omega) hvalid d1 X (by omega), thenBytes_some]
        simp

theorem parseString_encodeString (s X : GoString) (h : ValidString s = true) :
    parseString (encodeString s ++ X) = some (s, X) := by
  unfold encodeString parseString
  simp only [List.singleton_append, List.cons_append, List.append_assoc]
  rw [if_pos (by decide)]
  exact unquoteLoop_encodeStringLoop s.length s (Nat.le_refl _) h _ X (by simp)

/-! ## JSON objects: reading back what `jsonMarshal` wrote -/

theorem skipSpace_cons (c : Byte) (X : GoString) (h : isSpace c = false) :
    skipSpace (c :: X) = c :: X := by
  rw [skipSpace]
  simp [h]

theorem encodeString_cons (s : GoString) :
    encodeString s = 34 :: (encodeStringLoop s.length s ++ [34]) := rfl

theorem encodeMembers_head (kv : GoString × GoString) (m : StringMap) :
    ∃ Y, encodeMembers (kv :: m) = 34 :: Y := by
  obtain ⟨k, v⟩ := kv
  cases m with
  | nil => exact ⟨_, rfl⟩
  | cons kv1 m1 =>
    rw [encodeMembers_cons_cons]
    exact ⟨_, rfl⟩

theorem parseMembers_step (fuel : Nat) (k v : GoString) (d : Byte) (Z : GoString)
    (hk : ValidString k = true) (hv : ValidString v = true) (hsp : isSpace d = false) :
    parseMembers (fuel + 1) (encodeString k ++ [58] ++ encodeString v ++ d :: Z) =
      if d.val = 125 then some ([(k, v)], Z)
      else if d.val = 44 then
        (parseMembers fuel (skipSpace Z)).map (fun p => ((k, v) :: p.1, p.2))
      else none := by
  have h1 : encodeString k ++ [58] ++ encodeString v ++ d :: Z =
      encodeString k ++ (58 :: (encodeString v ++ d :: Z)) := by simp
  rw [parseMembers, h1, parseString_encodeString k _ hk]
  simp only
  rw [skipSpace_cons 58 _ (by decide)]
  simp only
  rw [if_neg (by decide)]
  have h2 : skipSpace (encodeString v ++ d :: Z) = encodeString v ++ d :: Z := by
    rw [encodeString_cons, List.cons_append, skipSpace_cons 34 _ (by decide)]
  rw [h2, parseString_encodeString v _ hv]
  simp only
  rw [skipSpace_cons d Z hsp]

theorem parseMembers_encodeMembers (m : StringMap) :
    ∀ (kv : GoString × GoString) (fuel : Nat) (X : GoString),
      (∀ p ∈ kv :: m, ValidString p.1 = true ∧ ValidString p.2 = true) →
      m.length < fuel →
      parseMembers fuel (encodeMembers (kv :: m) ++ 125 :: X) = some (kv :: m, X) := by
  induction m with
  | nil =>
    intro kv fuel X hvalid hfuel
    obtain ⟨k, v⟩ := kv
    obtain ⟨f1, rfl⟩ : ∃ f1, fuel = f1 + 1 := ⟨fuel - 1, by omega⟩
    have hv := hvalid (k, v) (by simp)
    show parseMembers (f1 + 1) (encodeString k ++ [58] ++ encodeString v ++ 125 :: X) = _
    rw [parseMembers_step f1 k v 125 X hv.1 hv.2 (by decide), if_pos (by decide)]
  | cons kv1 m1 ih =>
    intro kv fuel X hvalid hfuel
    obtain ⟨k, v⟩ := kv
    obtain ⟨f1, rfl⟩ : ∃ f1, fuel = f1 + 1 := ⟨fuel - 1, by omega⟩
    have hv := hvalid (k, v) (by simp)
    have hrest : ∀ p ∈ kv1 :: m1, ValidString p.1 = true ∧ ValidString p.2 = true :=
      fun p hp => hvalid p (List.mem_cons_of_mem _ hp)
    have hshape : encodeMembers ((k, v) :: kv1 :: m1) ++ 125 :: X =
        encodeString k ++ [58] ++ encodeString v ++ 44 :: (encodeMembers (kv1 :: m1) ++ 125 :: X) := by
      rw [encodeMembers_cons_cons]
      simp
    obtain ⟨Y, hY⟩ := encodeMembers_head kv1 m1
    have hskip : skipSpace (encodeMembers (kv1 :: m1) ++ 125 :: X) =
        encodeMembers (kv1 :: m1) ++ 125 :: X := by
      rw [hY, List.cons_append, skipSpace_cons 34 _ (by decide)]
    rw [hshape, parseMembers_step f1 k v 44 _ hv.1 hv.2 (by decide), if_neg (by decide),
      if_pos (by decide), hskip, ih kv1 f1 X hrest (by simp at hfuel; omega)]
    rfl

theorem encodeMembers_length (m : StringMap) : m.length ≤ (encodeMembers m).length := by
  induction m with
  | nil => simp
  | cons kv m ih =>
    obtain ⟨k, v⟩ := kv
    cases m with
    | nil => simp [encodeMembers, encodeString]
    | cons kv1 m1 =>
      rw [encodeMembers_cons_cons]
      simp only [List.length_append, List.length_cons, List.length_nil] at ih ⊢
      omega

theorem parseObject_marshalled (m : StringMap)
    (hvalid : ∀ p ∈ m, ValidString p.1 = true ∧ ValidString p.2 = true) :
    parseObject ([123] ++ encodeMembers m ++ [125]) = some m := by
  cases m with
  | nil =>
    simp only [encodeMembers, List.append_nil, List.singleton_append]
    rw [parseObject, skipSpace_cons 123 _ (by decide)]
    simp only
    rw [if_neg (by decide), skipSpace_cons 125 _ (by decide)]
    simp only
    rw [if_pos (by decide)]
    rfl
  | cons kv m1 =>
    obtain ⟨Y, hY⟩ := encodeMembers_head kv m1
    have hlen := encodeMembers_length (kv :: m1)
    have hshape : [123] ++ encodeMembers (kv :: m1) ++ [125] =
        123 :: (encodeMembers (kv :: m1) ++ [125]) := by simp
    rw [hshape, parseObject, skipSpace_cons 123 _ (by decide)]
    simp only
    rw [if_neg (by decide)]
    have hskip : skipSpace (encodeMembers (kv :: m1) ++ [125]) = 34 :: (Y ++ [125]) := by
      rw [hY, List.cons_append, skipSpace_cons 34 _ (by decide)]
    rw [hskip]
    simp only
    rw [if_neg (by decide)]
    have hback : 34 :: (Y ++ [125]) = encodeMembers (kv :: m1) ++ 125 :: [] := by
      rw [hY, List.cons_append]
    rw [hback, parseMembers_encodeMembers m1 kv _ [] hvalid
      (by simp only [List.length_append, List.length_cons, List.length_nil] at hlen ⊢; omega)]
    rfl

/-! ## Maps -/

theorem mapAssign_perm (m : StringMap) (k v : GoString) (h : ∀ p ∈ m, p.1 ≠ k) :
    (mapAssign m k v).Perm ((k, v) :: m) := by
  induction m with
  | nil => exact List.Perm.refl _
  | cons p m ih =>
    obtain ⟨k1, v1⟩ := p
    have hk : k ≠ k1 := fun e => h (k1, v1) (by simp) e.symm
    rw [mapAssign, if_neg hk]
    split_ifs
    · exact List.Perm.refl _
    · exact ((ih (fun p hp => h p (List.mem_cons_of_mem _ hp))).cons (k1, v1)).trans
        (List.Perm.swap _ _ _)

theorem foldl_mapAssign_perm (l : StringMap) :
    ∀ acc : StringMap, ((acc ++ l).map Prod.fst).Nodup →
      (l.foldl (fun m kv => mapAssign m kv.1 kv.2) acc).Perm (acc ++ l) := by
  induction l with
  | nil => intro acc _; simp
  | cons kv l ih =>
    intro acc hnd
    obtain ⟨k, v⟩ := kv
    have hfresh : ∀ p ∈ acc, p.1 ≠ k := by
      intro p hp e
      rw [List.map_append, List.map_cons] at hnd
      have := (List.nodup_append.mp hnd).2.2
      exact this (List.mem_map_of_mem Prod.fst hp) (by simp [e])
    have hp1 := mapAssign_perm acc k v hfresh
    have hperm : (mapAssign acc k v ++ l).Perm (acc ++ (k, v) :: l) :=
      (hp1.append_right l).trans
        (List.perm_middle : (acc ++ (k, v) :: l).Perm ((k, v) :: (acc ++ l))).symm
    have hnd1 : ((mapAssign acc k v ++ l).map Prod.fst).Nodup :=
      (List.Perm.nodup_iff (hperm.map Prod.fst)).mpr hnd
    exact (ih (mapAssign acc k v) hnd1).trans hperm

theorem mapAssign_mem (m : StringMap) (k v : GoString) :
    ∀ p ∈ mapAssign m k v, p = (k, v) ∨ p ∈ m := by
  induction m with
  | nil => intro p hp; simpa [mapAssign] using hp
  | cons q m ih =>
    intro p hp
    obtain ⟨k1, v1⟩ := q
    rw [mapAssign] at hp
    split_ifs at hp
    · rcases List.mem_cons.mp hp with h | h
      · exact Or.inl h
      · exact Or.inr (List.mem_cons_of_mem _ h)
    · rcases List.mem_cons.mp hp with h | h
      · exact Or.inl h
      · exact Or.inr h
    · rcases List.mem_cons.mp hp with h | h
      · exact Or.inr (h ▸ List.mem_cons_self _ _)
      · rcases ih p h with h1 | h1
        · exact Or.inl h1
        · exact Or.inr (List.mem_cons_of_mem _ h1)

/-! ## The identity-annotation appender -/

theorem jsonUnmarshal_jsonMarshal (m : StringMap)
    (hvalid : ∀ p ∈ m, ValidString p.1 = true ∧ ValidString p.2 = true)
    (hnd : (m.map Prod.fst).Nodup) :
    ∃ m1, jsonUnmarshal ([123] ++ encodeMembers m ++ [125]) = some m1 ∧ m1.Perm m := by
  refine ⟨_, by rw [jsonUnmarshal, parseObject_marshalled m hvalid]; rfl, ?_⟩
  simpa using foldl_mapAssign_perm m [] (by simpa using hnd)

theorem nodeAnnotations_perm (k1 k2 k3 v1 v2 v3 : GoString) (h12 : k1 ≠ k2) (h13 : k1 ≠ k3)
    (h23 : k2 ≠ k3) :
    (mapAssign (mapAssign (mapAssign [] k1 v1) k2 v2) k3 v3).Perm
      [(k1, v1), (k2, v2), (k3, v3)] := by
  have p1 : (mapAssign [] k1 v1).Perm [(k1, v1)] := List.Perm.refl _
  have p2 : (mapAssign (mapAssign [] k1 v1) k2 v2).Perm [(k2, v2), (k1, v1)] :=
    mapAssign_perm _ k2 v2 (fun p hp => by
      rcases List.mem_singleton.mp (p1.mem_iff.mp hp) with rfl
      exact h12)
  have p3 : (mapAssign (mapAssign (mapAssign [] k1 v1) k2 v2) k3 v3).Perm
      ((k3, v3) :: mapAssign (mapAssign [] k1 v1) k2 v2) :=
    mapAssign_perm _ k3 v3 (fun p hp => by
      have := p2.mem_iff.mp hp
      simp only [List.mem_cons, List.mem_singleton, List.not_mem_nil, or_false] at this
      rcases this with rfl | rfl
      · exact h23
      · exact h13)
  refine p3.trans ((p2.cons (k3, v3)).trans ?_)
  exact (List.Perm.swap _ _ _).trans (((List.Perm.swap (k1, v1) (k3, v3) []).cons (k2, v2)).trans
    (List.Perm.swap _ _ _))

/-- C9, amended: for every current-config id `c` that is valid UTF-8 (and
constants that are valid UTF-8 with three distinct keys), `appendNodeAnnotations`
returns nil and appends exactly one file entry, at the identity-annotation path,
whose source decodes (`getDecodedContent`, then JSON) to a map with exactly the
three entries current-config key to `c`, desired-config key to `c`, daemon-state
key to the Done value. -/
theorem C9_node_annotations_valid_utf8 (k : DaemonConsts) (M : MediaTypeSyntax) (conf : Config)
    (c : GoString) (hc : ValidString c = true)
    (hcur : ValidString k.CurrentMachineConfigAnnotationKey = true)
    (hdes : ValidString k.DesiredMachineConfigAnnotationKey = true)
    (hstate : ValidString k.MachineConfigDaemonStateAnnotationKey = true)
    (hdone : ValidString k.MachineConfigDaemonStateDone = true)
    (h12 : k.CurrentMachineConfigAnnotationKey ≠ k.DesiredMachineConfigAnnotationKey)
    (h13 : k.CurrentMachineConfigAnnotationKey ≠ k.MachineConfigDaemonStateAnnotationKey)
    (h23 : k.DesiredMachineConfigAnnotationKey ≠ k.MachineConfigDaemonStateAnnotationKey) :
    annotationsDecodeTo k M conf c := by
  have hperm := nodeAnnotations_perm k.CurrentMachineConfigAnnotationKey
    k.DesiredMachineConfigAnnotationKey k.MachineConfigDaemonStateAnnotationKey c c
    k.MachineConfigDaemonStateDone h12 h13 h23
  have hvalid : ∀ p ∈ mapAssign (mapAssign (mapAssign [] k.CurrentMachineConfigAnnotationKey c)
      k.DesiredMachineConfigAnnotationKey c) k.MachineConfigDaemonStateAnnotationKey
      k.MachineConfigDaemonStateDone, ValidString p.1 = true ∧ ValidString p.2 = true := by
    intro p hp
    have := hperm.mem_iff.mp hp
    simp only [List.mem_cons, List.mem_singleton, List.not_mem_nil, or_false] at this
    rcases this with rfl | rfl | rfl
    · exact ⟨hcur, hc⟩
    · exact ⟨hdes, hc⟩
    · exact ⟨hstate, hdone⟩
  have hnd : ((mapAssign (mapAssign (mapAssign [] k.CurrentMachineConfigAnnotationKey c)
      k.DesiredMachineConfigAnnotationKey c) k.MachineConfigDaemonStateAnnotationKey
      k.MachineConfigDaemonStateDone).map Prod.fst).Nodup := by
    rw [List.Perm.nodup_iff (hperm.map Prod.fst)]
    simp [h12, h13, h23]
  obtain ⟨m1, hm1, hp1⟩ := jsonUnmarshal_jsonMarshal _ hvalid hnd
  unfold annotationsDecodeTo
  rw [appendNodeAnnotations_eq, appendFileToIgnition_eq, getNodeAnnotation_eq]
  exact ⟨rfl, _, rfl, rfl, _, _, m1, rfl, getDecodedContent_getEncodedContent M _, hm1,
    hp1.trans hperm⟩

/-- C9 at the current-config id `rendered-worker-1`. -/
theorem C9_node_annotations_valid_utf8_witness :
    annotationsDecodeTo sampleConsts noMediaType NewIgnConfig (ascii "rendered-worker-1") :=
  C9_node_annotations_valid_utf8 sampleConsts noMediaType NewIgnConfig
    (ascii "rendered-worker-1") (by decide) (by decide) (by decide) (by decide) (by decide)
    (by decide) (by decide) (by decide)

set_option maxRecDepth 1000000 in
theorem jsonUnmarshal_invalid_sample :
    jsonUnmarshal ( getNodeAnnotation sampleConsts [255]).1 =
      some [(sampleConsts.CurrentMachineConfigAnnotationKey, [0xEF, 0xBF, 0xBD]),
            (sampleConsts.DesiredMachineConfigAnnotationKey, [0xEF, 0xBF, 0xBD]),
            (sampleConsts.MachineConfigDaemonStateAnnotationKey, ascii "Done")] := by
  decide

set_option maxRecDepth 1000000 in
theorem sample_entry_not_mem :
    (sampleConsts.CurrentMachineConfigAnnotationKey, ([255] : GoString)) ∉
      [(sampleConsts.CurrentMachineConfigAnnotationKey, ([0xEF, 0xBF, 0xBD] : GoString)),
       (sampleConsts.DesiredMachineConfigAnnotationKey, [0xEF, 0xBF, 0xBD]),
       (sampleConsts.MachineConfigDaemonStateAnnotationKey, ascii "Done")] := by
  decide

/-- C9 as stated fails at the current-config id made of the single byte 0xFF,
which is not valid UTF-8: `json.Marshal` writes it as U+FFFD, so the payload
decodes to a map that holds the three bytes EF BF BD under the current-config
key, not the id. -/
theorem C9_counterexample_invalid_utf8 :
    ¬ annotationsDecodeTo sampleConsts noMediaType NewIgnConfig [255] := by
  rintro ⟨-, file, hfiles, -, src, payload, m, hsrc, hdec, hjson, hperm⟩
  rw [appendNodeAnnotations_eq, appendFileToIgnition_eq] at hfiles
  dsimp only at hfiles
  have hfile := List.singleton_inj.mp (List.append_cancel_left hfiles)
  subst hfile
  simp only [Option.some.injEq] at hsrc
  subst hsrc
  rw [getDecodedContent_getEncodedContent] at hdec
  have hpayload : payload = ( getNodeAnnotation sampleConsts [255]).1 :=
    (congrArg Prod.fst hdec).symm
  subst hpayload
  rw [jsonUnmarshal_invalid_sample] at hjson
  simp only [Option.some.injEq] at hjson
  subst hjson
  exact sample_entry_not_mem (hperm.mem_iff.mpr (List.mem_cons_self _ _))

/-! ## Shape of the encoded content -/

theorem Escape_eq_flatMap (x : GoString) : Escape x = x.flatMap escapeByte := by
  induction x with
  | nil => rfl
  | cons b data ih => rw [Escape, ih, List.flatMap_cons]

set_option maxRecDepth 100000 in
set_option maxHeartbeats 4000000 in
theorem isUnreserved_contains : ∀ b : Byte, isUnreserved b = unreservedBytes.contains b := by
  decide

theorem isUnreserved_iff_mem (b : Byte) : isUnreserved b = true ↔ b ∈ unreservedBytes := by
  rw [isUnreserved_contains b]
  simp

set_option maxRecDepth 100000 in
set_option maxHeartbeats 4000000 in
theorem upperHexDigit_mem : ∀ b : Byte,
    upperHexDigit (b.val / 16) ∈ upperHexDigits ∧
    upperHexDigit (b.val % 16) ∈ upperHexDigits := by
  decide

set_option maxRecDepth 100000 in
set_option maxHeartbeats 4000000 in
theorem escapeByte_all_printable : ∀ b : Byte, (escapeByte b).all isPrintableASCII = true := by
  decide

theorem escapeByte_printable (b : Byte) : ∀ c ∈ escapeByte b, isPrintableASCII c = true :=
  List.all_eq_true.mp (escapeByte_all_printable b)

theorem escapeByte_shape (b : Byte) :
    (isUnreserved b = true ↔ b ∈ unreservedBytes) ∧
    (isUnreserved b = true → escapeByte b = [b]) ∧
    (isUnreserved b = false →
      escapeByte b = [37, upperHexDigit (b.val / 16), upperHexDigit (b.val % 16)]) ∧
    upperHexDigit (b.val / 16) ∈ upperHexDigits ∧
    upperHexDigit (b.val % 16) ∈ upperHexDigits ∧
    (∀ c ∈ escapeByte b, isPrintableASCII c = true) :=
  ⟨isUnreserved_iff_mem b, fun h => by simp [escapeByte, h], fun h => by simp [escapeByte, h],
    (upperHexDigit_mem b).1, (upperHexDigit_mem b).2, escapeByte_printable b⟩

theorem Escape_printable (x : GoString) : ∀ c ∈ Escape x, isPrintableASCII c = true := by
  induction x with
  | nil => intro c hc; simp [Escape] at hc
  | cons b data ih =>
    intro c hc
    rw [Escape, List.mem_append] at hc
    rcases hc with hc | hc
    · exact (escapeByte_shape b).2.2.2.2.2 c hc
    · exact ih c hc

set_option maxRecDepth 100000 in
theorem dataComma_printable : ∀ c ∈ ascii "data:,", isPrintableASCII c = true := by
  decide

/-- C11: for every byte sequence `getEncodedContent` is `data:,` followed by the
escaped body, which is the bytes of the input written one after the other: an
unreserved byte (letter, digit or one of `-_.!~*'()`) as itself, every other byte
as `%` and the two upper-case hexadecimal digits of its value; every byte of the
result is printable ASCII. -/
theorem C11_encoded_content_shape (x : GoString) :
    getEncodedContent x = ascii "data:," ++ x.flatMap escapeByte ∧
    (∀ b : Byte, b ∈ unreservedBytes → escapeByte b = [b]) ∧
    (∀ b : Byte, b ∉ unreservedBytes →
      escapeByte b = [37, upperHexDigit (b.val / 16), upperHexDigit (b.val % 16)] ∧
      upperHexDigit (b.val / 16) ∈ upperHexDigits ∧
      upperHexDigit (b.val % 16) ∈ upperHexDigits ∧
      unhex (upperHexDigit (b.val % 16)) + unhex (upperHexDigit (b.val / 16)) * 16 = b) ∧
    (∀ c ∈ getEncodedContent x, isPrintableASCII c = true) := by
  have hshape : getEncodedContent x = ascii "data:," ++ Escape x := rfl
  refine ⟨by rw [hshape, Escape_eq_flatMap], ?_, ?_, ?_⟩
  · intro b hb
    exact (escapeByte_shape b).2.1 ((escapeByte_shape b).1.mpr hb)
  · intro b hb
    have hu : isUnreserved b = false := by
      cases h : isUnreserved b
      · rfl
      · exact absurd ((escapeByte_shape b).1.mp h) hb
    exact ⟨(escapeByte_shape b).2.2.1 hu, (escapeByte_shape b).2.2.2.1,
      (escapeByte_shape b).2.2.2.2.1, (escapeByte_facts b).2.2.2.1⟩
  · intro c hc
    rw [hshape, List.mem_append] at hc
    rcases hc with hc | hc
    · exact dataComma_printable c hc
    · exact Escape_printable x c hc

/-- C11 at the three bytes `a`, space and 0xFF: the result is `data:,a%20%FF`. -/
theorem C11_encoded_content_shape_witness :
    getEncodedContent [97, 32, 255] = ascii "data:,a%20%FF" ∧
    ((97 : Byte) ∈ unreservedBytes ∧ escapeByte 97 = [97]) ∧
    ((255 : Byte) ∉ unreservedBytes ∧ escapeByte 255 = ascii "%FF") :=
  ⟨(C11_encoded_content_shape [97, 32, 255]).1.trans (by decide),
   ⟨by decide, (C11_encoded_content_shape []).2.1 97 (by decide)⟩,
   ⟨by decide, ((C11_encoded_content_shape []).2.2.1 255 (by decide)).1.trans (by decide)⟩⟩

/-! ## The version tag -/

theorem appendFileToIgnition_version (conf : Config) (outPath contents : GoString) :
    (appendFileToIgnition conf outPath contents).Ignition = conf.Ignition := by
  rw [appendFileToIgnition_eq]

theorem appendInitialPivot_version (k : DaemonConsts) (conf : Config) (t : GoString) :
    (appendInitialPivot k conf t).1.Ignition = conf.Ignition := by
  by_cases ht : t = []
  · subst ht
    simp [appendInitialPivot]
  · rw [appendInitialPivot_eq k conf t ht]

theorem appendKubeConfig_cases (conf : Config) (f : kubeconfigFunc) :
    (∃ e, (f ()).2.2 = some e ∧ appendKubeConfig conf f = (conf, some e)) ∨
    ((f ()).2.2 = none ∧
      appendKubeConfig conf f =
        (appendFileToIgnition conf defaultMachineKubeConfPath (f ()).1, none)) := by
  rcases hf : f () with ⟨p, s, _ | e⟩
  · exact Or.inr ⟨rfl, appendKubeConfig_ok conf f p s hf⟩
  · exact Or.inl ⟨e, rfl, appendKubeConfig_err conf f p s e hf⟩

theorem appendKubeConfig_version (conf : Config) (f : kubeconfigFunc) :
    (appendKubeConfig conf f).1.Ignition = conf.Ignition := by
  rcases appendKubeConfig_cases conf f with ⟨e, -, h⟩ | ⟨-, h⟩
  · rw [h]
  · rw [h, appendFileToIgnition_eq]

theorem appendNodeAnnotations_version (k : DaemonConsts) (conf : Config) (c : GoString) :
    (appendNodeAnnotations k conf c).1.Ignition = conf.Ignition := by
  rw [appendNodeAnnotations_eq, appendFileToIgnition_eq]

theorem Call_run_version (k : DaemonConsts) (conf : Config) (call : Call) :
    (call.run k conf).Ignition.Version = conf.Ignition.Version := by
  cases call with
  | nodeAnnotations c => exact congrArg _ (appendNodeAnnotations_version k conf c)
  | initialPivot t => exact congrArg _ (appendInitialPivot_version k conf t)
  | kubeConfig f => exact congrArg _ (appendKubeConfig_version conf f)
  | fileToIgnition p c => exact congrArg _ (appendFileToIgnition_version conf p c)

theorem runCalls_version (k : DaemonConsts) (calls : List Call) :
    ∀ conf : Config, (runCalls k conf calls).Ignition.Version = conf.Ignition.Version := by
  induction calls with
  | nil => intro conf; rfl
  | cons call calls ih =>
    intro conf
    rw [runCalls, List.foldl_cons]
    exact (ih (call.run k conf)).trans (Call_run_version k conf call)

/-- C12: each of `appendNodeAnnotations`, `appendInitialPivot`, `appendKubeConfig`
and `appendFileToIgnition` leaves the version tag of any document as it was, with
any arguments and whether it fails or not; so every document reached from
`NewIgnConfig` by any sequence of such calls has version tag `3.0.0`. -/
theorem C12_version_tag_never_altered (k : DaemonConsts) :
    (∀ (conf : Config) (c : GoString),
      (appendNodeAnnotations k conf c).1.Ignition.Version = conf.Ignition.Version) ∧
    (∀ (conf : Config) (t : GoString),
      (appendInitialPivot k conf t).1.Ignition.Version = conf.Ignition.Version) ∧
    (∀ (conf : Config) (f : kubeconfigFunc),
      (appendKubeConfig conf f).1.Ignition.Version = conf.Ignition.Version) ∧
    (∀ (conf : Config) (outPath contents : GoString),
      (appendFileToIgnition conf outPath contents).Ignition.Version = conf.Ignition.Version) ∧
    (∀ calls : List Call, (runCalls k NewIgnConfig calls).Ignition.Version = ascii "3.0.0") :=
  ⟨fun conf c => congrArg _ (appendNodeAnnotations_version k conf c),
   fun conf t => congrArg _ (appendInitialPivot_version k conf t),
   fun conf f => congrArg _ (appendKubeConfig_version conf f),
   fun conf p c => congrArg _ (appendFileToIgnition_version conf p c),
   fun calls => runCalls_version k calls NewIgnConfig⟩

/-- C13: the document of `NewIgnConfig` has version tag `3.0.0`, no file entry
and no unit entry. -/
theorem C13_NewIgnConfig_empty :
    NewIgnConfig.Ignition.Version = ascii "3.0.0" ∧
    NewIgnConfig.Storage.Files = [] ∧
    NewIgnConfig.Systemd.Units = [] ∧
    NewIgnConfig.Storage.Files.length = 0 ∧
    NewIgnConfig.Systemd.Units.length = 0 :=
  ⟨rfl, rfl, rfl, rfl, rfl⟩

/-! ## Paths of the file entries -/

theorem appendFileToIgnition_files (conf : Config) (outPath contents : GoString) :
    (appendFileToIgnition conf outPath contents).Storage.Files =
      conf.Storage.Files ++ [fileEntry outPath contents] := by
  rw [appendFileToIgnition_eq]
  rfl

theorem appendFileToIgnition_units (conf : Config) (outPath contents : GoString) :
    (appendFileToIgnition conf outPath contents).Systemd.Units = conf.Systemd.Units := by
  rw [appendFileToIgnition_eq]

theorem filePaths_appendFileToIgnition (conf : Config) (outPath contents : GoString) :
    filePaths (appendFileToIgnition conf outPath contents) = filePaths conf ++ [outPath] := by
  simp [filePaths, appendFileToIgnition_files, fileEntry]

theorem entriesAt_appendFileToIgnition (conf : Config) (outPath contents : GoString) :
    entriesAt (appendFileToIgnition conf outPath contents) outPath =
      entriesAt conf outPath ++ [fileEntry outPath contents] := by
  simp [entriesAt, appendFileToIgnition_files, fileEntry, List.filter_append]

theorem entriesAt_of_fresh (conf : Config) (path : GoString) (h : path ∉ filePaths conf) :
    entriesAt conf path = [] := by
  rw [entriesAt, List.filter_eq_nil_iff]
  intro file hfile hpath
  exact h (List.mem_map.mpr ⟨file, hfile, of_decide_eq_true hpath⟩)

/-- C14, amended: on a document whose file entries have pairwise distinct paths,
`appendFileToIgnition` with a path that is not among them leaves pairwise
distinct paths, and the one entry at the given path carries the new contents. In
any case no entry is replaced: the entries at the given path are the old ones
followed by the new one. -/
theorem C14_fresh_path_keeps_paths_distinct (conf : Config) (outPath contents : GoString)
    (hdistinct : (filePaths conf).Nodup) (hfresh : outPath ∉ filePaths conf) :
    (filePaths (appendFileToIgnition conf outPath contents)).Nodup ∧
    entriesAt (appendFileToIgnition conf outPath contents) outPath =
      [fileEntry outPath contents] ∧
    (fileEntry outPath contents).FileEmbedded1.Contents.Source =
      some (getEncodedContent contents) ∧
    (∀ (conf1 : Config) (path1 contents1 : GoString),
      entriesAt (appendFileToIgnition conf1 path1 contents1) path1 =
        entriesAt conf1 path1 ++ [fileEntry path1 contents1]) := by
  refine ⟨?_, ?_, rfl, entriesAt_appendFileToIgnition⟩
  · rw [filePaths_appendFileToIgnition]
    exact List.Nodup.append hdistinct (List.nodup_singleton _)
      (fun a ha hmem => hfresh ((List.mem_singleton.mp hmem) ▸ ha))
  · rw [entriesAt_appendFileToIgnition, entriesAt_of_fresh conf outPath hfresh]
    rfl

/-- C14, amended, at the document that already has a file at `/etc/a`, with the
new path `/etc/b`: the paths `/etc/a`, `/etc/b` are distinct and the one entry at
`/etc/b` is the new one. -/
theorem C14_fresh_path_keeps_paths_distinct_witness :
    (filePaths (appendFileToIgnition NewIgnConfig (ascii "/etc/a") (ascii "old"))).Nodup ∧
    ascii "/etc/b" ∉
      filePaths (appendFileToIgnition NewIgnConfig (ascii "/etc/a") (ascii "old")) ∧
    filePaths (appendFileToIgnition NewIgnConfig (ascii "/etc/a") (ascii "old")) =
      [ascii "/etc/a"] ∧
    (filePaths (appendFileToIgnition
      (appendFileToIgnition NewIgnConfig (ascii "/etc/a") (ascii "old"))
      (ascii "/etc/b") (ascii "new"))).Nodup ∧
    entriesAt (appendFileToIgnition
      (appendFileToIgnition NewIgnConfig (ascii "/etc/a") (ascii "old"))
      (ascii "/etc/b") (ascii "new")) (ascii "/etc/b") =
      [fileEntry (ascii "/etc/b") (ascii "new")] :=
  ⟨by decide, by decide, by decide,
   (C14_fresh_path_keeps_paths_distinct
      (appendFileToIgnition NewIgnConfig (ascii "/etc/a") (ascii "old"))
      (ascii "/etc/b") (ascii "new") (by decide) (by decide)).1,
   (C14_fresh_path_keeps_paths_distinct
      (appendFileToIgnition NewIgnConfig (ascii "/etc/a") (ascii "old"))
      (ascii "/etc/b") (ascii "new") (by decide) (by decide)).2.1⟩

/-- C14 as stated fails on the document with one file at `/etc/a`: its paths are
pairwise distinct, and after `appendFileToIgnition` with the same path the
document has two entries at `/etc/a`, the old one first, so the paths are not
distinct and the old contents are still there. -/
theorem C14_counterexample_duplicate_path :
    (filePaths (appendFileToIgnition NewIgnConfig (ascii "/etc/a") (ascii "old"))).Nodup ∧
    ¬ (filePaths (appendFileToIgnition
        (appendFileToIgnition NewIgnConfig (ascii "/etc/a") (ascii "old"))
        (ascii "/etc/a") (ascii "new"))).Nodup ∧
    entriesAt (appendFileToIgnition
        (appendFileToIgnition NewIgnConfig (ascii "/etc/a") (ascii "old"))
        (ascii "/etc/a") (ascii "new")) (ascii "/etc/a") =
      [fileEntry (ascii "/etc/a") (ascii "old"), fileEntry (ascii "/etc/a") (ascii "new")] := by
  refine ⟨by decide, by decide, ?_⟩
  rw [entriesAt_appendFileToIgnition, entriesAt_appendFileToIgnition]
  rfl

/-! ## Errors of the appenders -/

/-- C15: `json.Marshal` fails on a map only through an element its encoder
refuses, and the encoder of a string refuses none; so for every current-config
id, valid UTF-8 or not, `getNodeAnnotation` returns a nil error and
`appendNodeAnnotations` returns nil on every document: the branch that reports a
marshalling failure is never taken. -/
theorem C15_serialization_never_fails (k : DaemonConsts) (c : GoString) :
    (∀ m : StringMap, ∃ contents, jsonMarshal m = .ok contents) ∧
    ( getNodeAnnotation k c).2 = none ∧
    (∀ conf : Config, (appendNodeAnnotations k conf c).2 = none) := by
  refine ⟨fun m => ⟨_, marshalMap_string m⟩, by rw [getNodeAnnotation_eq],
    fun conf => by rw [appendNodeAnnotations_eq]⟩

/-- C16: two retrieval functions that return the same primary payload and the
same error make `appendKubeConfig` return the same error and the same document,
whatever their secondary payloads. -/
theorem C16_secondary_payload_unused (conf : Config) (f g : kubeconfigFunc)
    (hpayload : (f ()).1 = (g ()).1) (herror : (f ()).2.2 = (g ()).2.2) :
    appendKubeConfig conf f = appendKubeConfig conf g := by
  rcases hf : f () with ⟨p, s, e⟩
  rcases hg : g () with ⟨p1, s1, e1⟩
  rw [hf, hg] at hpayload herror
  simp only at hpayload herror
  subst hpayload herror
  cases e with
  | none => rw [appendKubeConfig_ok conf f p s hf, appendKubeConfig_ok conf g p s1 hg]
  | some err => rw [appendKubeConfig_err conf f p s err hf, appendKubeConfig_err conf g p s1 err hg]

/-- C16 at two retrieval functions whose secondary payloads differ. -/
theorem C16_secondary_payload_unused_witness :
    ascii "CA-1" ≠ ascii "CA-2" ∧
    appendKubeConfig NewIgnConfig (fun _ => (ascii "KUBECONFIGDATA", ascii "CA-1", none)) =
      appendKubeConfig NewIgnConfig (fun _ => (ascii "KUBECONFIGDATA", ascii "CA-2", none)) :=
  ⟨by decide,
   C16_secondary_payload_unused NewIgnConfig
    (fun _ => (ascii "KUBECONFIGDATA", ascii "CA-1", none))
    (fun _ => (ascii "KUBECONFIGDATA", ascii "CA-2", none)) rfl rfl⟩

/-- C19: when the retrieval function returns a non-nil error, the document
after `appendKubeConfig` is the document before it: no file entry and no unit
entry is added. -/
theorem C19_appendKubeConfig_atomic_on_failure (conf : Config) (f : kubeconfigFunc)
    (e : GoError) (hf : (f ()).2.2 = some e) :
    (appendKubeConfig conf f).1 = conf ∧
    (appendKubeConfig conf f).1.Storage.Files = conf.Storage.Files ∧
    (appendKubeConfig conf f).1.Systemd.Units = conf.Systemd.Units ∧
    (appendKubeConfig conf f).2 = some e := by
  rcases hfe : f () with ⟨p, s, e1⟩
  rw [hfe] at hf
  simp only at hf
  subst hf
  rw [appendKubeConfig_err conf f p s e hfe]
  exact ⟨rfl, rfl, rfl, rfl⟩

/-- C19 at a failing retrieval function that also hands back data, on a document
that already has a file. -/
theorem C19_appendKubeConfig_atomic_on_failure_witness :
    (appendKubeConfig (appendFileToIgnition NewIgnConfig (ascii "/etc/a") (ascii "old"))
      (fun _ => (ascii "partial", [], some "no kubeconfig"))).1 =
      appendFileToIgnition NewIgnConfig (ascii "/etc/a") (ascii "old") :=
  (C19_appendKubeConfig_atomic_on_failure
    (appendFileToIgnition NewIgnConfig (ascii "/etc/a") (ascii "old"))
    (fun _ => (ascii "partial", [], some "no kubeconfig")) "no kubeconfig" rfl).1

/-! ## Entries are only ever added -/

theorem entriesKept_refl (d : Config) : entriesKept d d :=
  ⟨List.prefix_refl _, List.prefix_refl _⟩

theorem entriesKept_trans {d d1 d2 : Config} (h1 : entriesKept d d1) (h2 : entriesKept d1 d2) :
    entriesKept d d2 :=
  ⟨h1.1.trans h2.1, h1.2.trans h2.2⟩

theorem entriesKept_appendFileToIgnition (conf : Config) (outPath contents : GoString) :
    entriesKept conf (appendFileToIgnition conf outPath contents) := by
  unfold entriesKept
  rw [appendFileToIgnition_files, appendFileToIgnition_units]
  exact ⟨List.prefix_append _ _, List.prefix_refl _⟩

theorem entriesKept_appendNodeAnnotations (k : DaemonConsts) (conf : Config) (c : GoString) :
    entriesKept conf (appendNodeAnnotations k conf c).1 := by
  rw [appendNodeAnnotations_eq]
  exact entriesKept_appendFileToIgnition conf _ _

theorem appendInitialPivot_files_units (k : DaemonConsts) (conf : Config) (t : GoString) :
    (appendInitialPivot k conf t).1.Storage.Files =
      conf.Storage.Files ++
        (if t = [] then [] else [fileEntry k.EtcPivotFile (t ++ ascii "\n")]) ∧
    (appendInitialPivot k conf t).1.Systemd.Units =
      conf.Systemd.Units ++ (if t = [] then [] else [pivotUnit]) ∧
    (appendInitialPivot k conf t).2 = none := by
  by_cases ht : t = []
  · subst ht
    simp [appendInitialPivot]
  · rw [appendInitialPivot_eq k conf t ht, if_neg ht, if_neg ht]
    exact ⟨rfl, rfl, rfl⟩

theorem entriesKept_appendInitialPivot (k : DaemonConsts) (conf : Config) (t : GoString) :
    entriesKept conf (appendInitialPivot k conf t).1 := by
  obtain ⟨hf, hu, -⟩ := appendInitialPivot_files_units k conf t
  unfold entriesKept
  rw [hf, hu]
  exact ⟨List.prefix_append _ _, List.prefix_append _ _⟩

theorem entriesKept_appendKubeConfig (conf : Config) (f : kubeconfigFunc) :
    entriesKept conf (appendKubeConfig conf f).1 := by
  rcases appendKubeConfig_cases conf f with ⟨e, -, h⟩ | ⟨-, h⟩
  · rw [h]
    exact entriesKept_refl conf
  · rw [h]
    exact entriesKept_appendFileToIgnition conf _ _

theorem Run_cons_of_ok (a : appenderFunc) (rest : List appenderFunc) (d d1 : Config)
    (h : a d = (d1, none)) : Run d (a :: rest) = Run d1 rest := by
  rw [Run, h]

theorem Run_getAppenders {PoolRequest : Type} (k : DaemonConsts) (cr : PoolRequest)
    (conf : Config) (c url : GoString) (f : kubeconfigFunc) :
    Run conf (getAppenders k cr c f url) =
      appendKubeConfig (appendInitialPivot k (appendNodeAnnotations k conf c).1 url).1 f := by
  have h2 : ∀ d : Config, appendInitialPivot k d url = ((appendInitialPivot k d url).1, none) :=
    fun d => Prod.ext rfl (appendInitialPivot_files_units k d url).2.2
  have h3 : ∀ d : Config, Run d [fun config => appendKubeConfig config f] =
      appendKubeConfig d f := by
    intro d
    rw [Run]
    rcases appendKubeConfig d f with ⟨d1, _ | e⟩
    · rfl
    · rfl
  have h1 : appendNodeAnnotations k conf c = ((appendNodeAnnotations k conf c).1, none) :=
    Prod.ext rfl (by rw [appendNodeAnnotations_eq])
  rw [getAppenders,
    Run_cons_of_ok (fun config => appendNodeAnnotations k config c) _ conf _ h1,
    Run_cons_of_ok (fun config => appendInitialPivot k config url) _ _ _ (h2 _), h3]

/-- C17: each of `appendNodeAnnotations`, `appendInitialPivot` and
`appendKubeConfig`, whether it fails or not, leaves the old file list as a
prefix of the new file list and the old unit list as a prefix of the new unit
list. Hence the document a run of `getAppenders` returns, failed or not, still
has in front the entries of the document it started from, of the document after
the identity-annotation appender and of the document after the upgrade-marker
appender. -/
theorem C17_entries_are_kept (k : DaemonConsts) (conf : Config) :
    (∀ c : GoString,
      conf.Storage.Files <+: (appendNodeAnnotations k conf c).1.Storage.Files ∧
      conf.Systemd.Units <+: (appendNodeAnnotations k conf c).1.Systemd.Units) ∧
    (∀ t : GoString,
      conf.Storage.Files <+: (appendInitialPivot k conf t).1.Storage.Files ∧
      conf.Systemd.Units <+: (appendInitialPivot k conf t).1.Systemd.Units) ∧
    (∀ f : kubeconfigFunc,
      conf.Storage.Files <+: (appendKubeConfig conf f).1.Storage.Files ∧
      conf.Systemd.Units <+: (appendKubeConfig conf f).1.Systemd.Units) ∧
    (∀ (PoolRequest : Type) (cr : PoolRequest) (c url : GoString) (f : kubeconfigFunc),
      entriesKept conf (Run conf (getAppenders k cr c f url)).1 ∧
      entriesKept (appendNodeAnnotations k conf c).1 (Run conf (getAppenders k cr c f url)).1 ∧
      entriesKept (appendInitialPivot k (appendNodeAnnotations k conf c).1 url).1
        (Run conf (getAppenders k cr c f url)).1) := by
  refine ⟨fun c => entriesKept_appendNodeAnnotations k conf c,
    fun t => entriesKept_appendInitialPivot k conf t,
    fun f => entriesKept_appendKubeConfig conf f, ?_⟩
  intro PoolRequest cr c url f
  rw [Run_getAppenders]
  have h3 := entriesKept_appendKubeConfig
    (appendInitialPivot k (appendNodeAnnotations k conf c).1 url).1 f
  have h2 := entriesKept_appendInitialPivot k (appendNodeAnnotations k conf c).1 url
  have h1 := entriesKept_appendNodeAnnotations k conf c
  exact ⟨entriesKept_trans h1 (entriesKept_trans h2 h3), entriesKept_trans h2 h3, h3⟩

/-- C18: a run of the three appenders of `getAppenders` returns exactly the error
of the retrieval function, so it fails if and only if that function does. When
it fails, the document is the one the first two appenders left: the old file
entries, then the identity-annotation entry, then for a non-empty upgrade target
the marker entry, and the old unit entries, then for a non-empty upgrade target
the marker unit; no entry was added by the credential appender, and when the two
fixed paths differ from the credential path no added entry stands at it. -/
theorem C18_run_fails_iff_retrieval_fails {PoolRequest : Type} (k : DaemonConsts)
    (cr : PoolRequest) (conf : Config) (c url : GoString) (f : kubeconfigFunc) :
    (Run conf (getAppenders k cr c f url)).2 = (f ()).2.2 ∧
    ((Run conf (getAppenders k cr c f url)).2 ≠ none ↔ (f ()).2.2 ≠ none) ∧
    ((f ()).2.2 ≠ none →
      (Run conf (getAppenders k cr c f url)).1 =
        (appendInitialPivot k (appendNodeAnnotations k conf c).1 url).1 ∧
      (Run conf (getAppenders k cr c f url)).1.Storage.Files =
        conf.Storage.Files ++
          ([fileEntry k.InitialNodeAnnotationsFilePath ( getNodeAnnotation k c).1] ++
            (if url = [] then [] else [fileEntry k.EtcPivotFile (url ++ ascii "\n")])) ∧
      (Run conf (getAppenders k cr c f url)).1.Systemd.Units =
        conf.Systemd.Units ++ (if url = [] then [] else [pivotUnit]) ∧
      (k.InitialNodeAnnotationsFilePath ≠ defaultMachineKubeConfPath →
        k.EtcPivotFile ≠ defaultMachineKubeConfPath →
        entriesAt (Run conf (getAppenders k cr c f url)).1 defaultMachineKubeConfPath =
          entriesAt conf defaultMachineKubeConfPath)) := by
  rw [Run_getAppenders]
  have hfiles : (appendInitialPivot k (appendNodeAnnotations k conf c).1 url).1.Storage.Files =
      conf.Storage.Files ++
        ([fileEntry k.InitialNodeAnnotationsFilePath ( getNodeAnnotation k c).1] ++
          (if url = [] then [] else [fileEntry k.EtcPivotFile (url ++ ascii "\n")])) := by
    rw [(appendInitialPivot_files_units k _ url).1, appendNodeAnnotations_eq,
      appendFileToIgnition_files, List.append_assoc]
  have hunits : (appendInitialPivot k (appendNodeAnnotations k conf c).1 url).1.Systemd.Units =
      conf.Systemd.Units ++ (if url = [] then [] else [pivotUnit]) := by
    rw [(appendInitialPivot_files_units k _ url).2.1, appendNodeAnnotations_eq,
      appendFileToIgnition_units]
  rcases appendKubeConfig_cases
    (appendInitialPivot k (appendNodeAnnotations k conf c).1 url).1 f with ⟨e, he, h⟩ | ⟨he, h⟩
  · rw [h, he]
    refine ⟨rfl, Iff.rfl, fun _ => ⟨rfl, hfiles, hunits, fun h1 h2 => ?_⟩⟩
    show entriesAt (appendInitialPivot k (appendNodeAnnotations k conf c).1 url).1 _ = _
    rw [entriesAt, hfiles, List.filter_append, List.filter_append]
    have e1 : List.filter (fun file => decide (file.Node.Path = defaultMachineKubeConfPath))
        [fileEntry k.InitialNodeAnnotationsFilePath ( getNodeAnnotation k c).1] = [] := by
      simp [fileEntry, h1]
    have e2 : List.filter (fun file => decide (file.Node.Path = defaultMachineKubeConfPath))
        (if url = [] then [] else [fileEntry k.EtcPivotFile (url ++ ascii "\n")]) = [] := by
      split_ifs <;> simp [fileEntry, h2]
    rw [e1, e2]
    simp [entriesAt]
  · rw [h, he]
    exact ⟨rfl, Iff.rfl, fun hne => absurd rfl hne⟩

/-- C18 at a failing retrieval function, on the empty document with the upgrade
target `quay.io/img:v2`: the run returns that error, with two files and one unit
and nothing at the credential path. -/
theorem C18_run_fails_iff_retrieval_fails_witness :
    (Run NewIgnConfig (getAppenders sampleConsts () (ascii "cfg-a")
      (fun _ => ([], [], some "no kubeconfig")) (ascii "quay.io/img:v2"))).2 =
      some "no kubeconfig" ∧
    (Run NewIgnConfig (getAppenders sampleConsts () (ascii "cfg-a")
      (fun _ => ([], [], some "no kubeconfig")) (ascii "quay.io/img:v2"))).1.Storage.Files.length
      = 2 ∧
    entriesAt (Run NewIgnConfig (getAppenders sampleConsts () (ascii "cfg-a")
      (fun _ => ([], [], some "no kubeconfig")) (ascii "quay.io/img:v2"))).1
      defaultMachineKubeConfPath = [] := by
  obtain ⟨h1, -, h3⟩ := C18_run_fails_iff_retrieval_fails sampleConsts () NewIgnConfig
    (ascii "cfg-a") (ascii "quay.io/img:v2") (fun _ => ([], [], some "no kubeconfig"))
  obtain ⟨-, hfiles, -, hat⟩ := h3 (by simp)
  refine ⟨h1, ?_, ?_⟩
  · rw [hfiles, if_neg (by decide)]
    rfl
  · rw [hat (by decide) (by decide)]
    rfl

end MCS
